import Mathlib

/-!
# RESTCONF service provider (`sdk/cpp/core/src/restconf_provider.cpp`)

A shallow embedding of the operation dispatcher `RestconfServiceProvider::invoke`,
its two paths `handle_edit` / `handle_read`, and the URL derivation
`get_module_url_path`, followed by theorems about them.

Conventions of the embedding.

* A `std::string` is a `CppString`, a list of `Char`; every list element stands for
  one `char` of the C++ string.  `size_t` values are natural numbers and every
  `size_t` operation that can wrap is written with an explicit `% 2 ^ 64`.
* A C++ function that can throw, or whose behaviour the language leaves undefined
  (dereferencing a null pointer, indexing an empty vector), returns a `Run`: an
  `Outcome` together with the trace of the calls it made to its collaborators
  (logger, codec, transport), in order.
* The collaborators whose code is not part of this file (schema tree, RPC input,
  codec, RESTCONF client) are parameters: records of functions.
-/

namespace ydk

/-! ## Strings -/

/-- A `std::string`: a sequence of `char`. -/
abbrev CppString := List Char

/-- The value of `std::string::npos`, the largest `size_t`. -/
def npos : Nat := 2 ^ 64 - 1

/-- Index of the first occurrence of `c`, if there is one. -/
def find_index (c : Char) : CppString → Option Nat
  | [] => none
  | x :: xs => if x = c then some 0 else (find_index c xs).map (· + 1)

/-- Index of the last occurrence of `c`, if there is one. -/
def find_last_index (c : Char) : CppString → Option Nat
  | [] => none
  | x :: xs =>
    match find_last_index c xs with
    | some i => some (i + 1)
    | none => if x = c then some 0 else none

/-- The call `s.find(c)` for a one-character pattern: position of the first
occurrence, `npos` when there is none. -/
def string_find (s : CppString) (c : Char) : Nat :=
  (find_index c s).getD npos

/-- The call `s.find_last_of(c)` for a one-character set: position of the last
occurrence, `npos` when there is none. -/
def find_last_of (s : CppString) (c : Char) : Nat :=
  (find_last_index c s).getD npos

/-! ## Errors, outcomes and traces -/

/-- The exceptions that can leave the functions of this file. -/
inductive YError where
  | YCPPError (msg : CppString)
  | YCPPOperationNotSupportedError (msg : CppString)
  | YCPPInvalidArgumentError (msg : CppString)
  | YCPPIllegalStateError (msg : CppString)
  | YCPPClientError (msg : CppString)
  | std_out_of_range
  deriving DecidableEq, Repr

/-- The call `s.substr(pos, n)`: throws `std::out_of_range` when `pos > s.size()`,
otherwise the characters `[pos, pos + min(n, size - pos))`. -/
def substr (s : CppString) (pos n : Nat) : Except YError CppString :=
  if pos > s.length then .error .std_out_of_range else .ok ((s.drop pos).take n)

/-- `EncodingFormat` of `types.hpp`. -/
inductive EncodingFormat where
  | XML
  | JSON
  deriving DecidableEq, Repr

/-- Severity of a logger call (`YLOG_INFO`, `YLOG_ERROR`). -/
inductive LogLevel where
  | info
  | error
  deriving DecidableEq, Repr

/-- One call made to a collaborator. -/
inductive Event where
  | log (level : LogLevel) (fmt : CppString) (args : List CppString)
  | decode (payload : CppString) (encoding : EncodingFormat)
  | encode (encoding : EncodingFormat)
  | execute (method url body : CppString)
  deriving DecidableEq, Repr

/-- How a C++ call ends: it returns a value, throws, or has undefined behaviour. -/
inductive Outcome (α : Type) where
  | returned (a : α)
  | threw (e : YError)
  | undefined

/-- A finished call: how it ended and the collaborator calls it made, in order. -/
structure Run (α : Type) where
  outcome : Outcome α
  trace : List Event

/-- Sequencing of two calls: the second runs only when the first returned. -/
def Run.bind {α β : Type} (r : Run α) (f : α → Run β) : Run β :=
  match r.outcome with
  | .returned a => ⟨(f a).outcome, r.trace ++ (f a).trace⟩
  | .threw e => ⟨.threw e, r.trace⟩
  | .undefined => ⟨.undefined, r.trace⟩

instance : Monad Run where
  pure a := ⟨.returned a, []⟩
  bind := Run.bind

/-- The statement `throw(e)`. -/
def Run.throw {α : Type} (e : YError) : Run α := ⟨.threw e, []⟩

/-- An operation the language gives no meaning to. -/
def Run.ub {α : Type} : Run α := ⟨.undefined, []⟩

/-- A pure computation that may throw. -/
def Run.ofExcept {α : Type} : Except YError α → Run α
  | .ok a => ⟨.returned a, []⟩
  | .error e => ⟨.threw e, []⟩

/-- A logger call (`YLOG_INFO` / `YLOG_ERROR`). -/
def ylog (level : LogLevel) (fmt : CppString) (args : List CppString) : Run Unit :=
  ⟨.returned (), [.log level fmt args]⟩

/-! ## Collaborators -/

/-- A `path::SchemaNode*`: schema nodes are compared by address. -/
abbrev SchemaNode := Nat

/-- A `path::DataNode`: the path of its schema node, its value (`get()`) and its
children (`children()`). -/
inductive DataNode where
  | mk (schema_path : CppString) (value : CppString) (children : List DataNode)

/-- The call `node.schema().path()`. -/
def DataNode.schema_path : DataNode → CppString
  | .mk p _ _ => p

/-- The call `node.get()`. -/
def DataNode.get : DataNode → CppString
  | .mk _ v _ => v

/-- The call `node.children()`. -/
def DataNode.children : DataNode → List DataNode
  | .mk _ _ cs => cs

/-- A `path::RootSchemaNode`: `find(path)` gives the schema nodes at a path. -/
structure RootSchemaNode where
  find : CppString → List SchemaNode

/-- A `path::Rpc`: its schema node and the lookup `rpc.input().find(path)`. -/
structure Rpc where
  schema : SchemaNode
  input_find : CppString → List DataNode

/-- A `path::CodecService`: `decode` gives a tree or a null pointer. -/
structure CodecService where
  decode : RootSchemaNode → CppString → EncodingFormat → Option DataNode
  encode : RootSchemaNode → DataNode → EncodingFormat → CppString

/-- A `RestconfClient`: `execute(method, url, body)` gives the reply or throws. -/
structure RestconfClient where
  execute : CppString → CppString → CppString → Except YError CppString

/-- The call `codec_service.decode(root_schema, payload, encoding)`. -/
def codec_decode (codec_service : CodecService) (root_schema : RootSchemaNode)
    (payload : CppString) (encoding : EncodingFormat) : Run (Option DataNode) :=
  ⟨.returned (codec_service.decode root_schema payload encoding), [.decode payload encoding]⟩

/-- The call `client->execute(method, url, body)`. -/
def client_execute (client : RestconfClient) (method url body : CppString) : Run CppString :=
  match client.execute method url body with
  | .ok reply => ⟨.returned reply, [.execute method url body]⟩
  | .error e => ⟨.threw e, [.execute method url body]⟩

/-- The expression `datanode->children()[0]->schema().path()`: undefined when
`datanode` is null or has no child. -/
def first_child_schema_path : Option DataNode → Run CppString
  | none => Run.ub
  | some d =>
    match d.children with
    | [] => Run.ub
    | child :: _ => pure child.schema_path

/-! ## The provider -/

/-- The data members of `RestconfServiceProvider` that `invoke` reads. -/
structure RestconfServiceProvider where
  client : RestconfClient
  root_schema : RootSchemaNode
  encoding : EncodingFormat
  edit_method : CppString
  config_url_root : CppString
  state_url_root : CppString

/-- `get_schema_for_operation` (lines 212-221). -/
def get_schema_for_operation (root_schema : RootSchemaNode) (operation : CppString) :
    Run SchemaNode :=
  match root_schema.find operation with
  | [] => do
    ylog .error "\x7b\x7d rpc schema not found!".toList [operation]
    Run.throw (.YCPPIllegalStateError (operation ++ " rpc schema not found!".toList))
  | c0 :: _ => pure c0

/-- `get_module_url_path` (lines 126-138). -/
def get_module_url_path (path : CppString) : Except YError CppString :=
  let top := find_last_of path '/'
  match substr path ((top + 1) % 2 ^ 64) ((path.length + 2 ^ 64 - top) % 2 ^ 64) with
  | .error e => .error e
  | .ok t =>
    if string_find t ':' ≠ npos then
      .ok ("/".toList ++ t)
    else
      let begin := string_find path ':'
      match substr path 0 begin with
      | .error e => .error e
      | .ok mod => .ok (mod ++ ":".toList ++ t)

/-- `is_config` (lines 140-147). -/
def is_config (rpc : Rpc) : Bool :=
  if ¬ (rpc.input_find "only-config".toList).isEmpty then true else false

/-- The choice of root in `handle_read` (lines 164-172): the configuration root
when `cfg`, the state root otherwise, followed by the module URL path. -/
def read_url (config_url_root state_url_root : CppString) (cfg : Bool) (path : CppString) :
    Except YError CppString :=
  if cfg then
    (get_module_url_path path).map (config_url_root ++ ·)
  else
    (get_module_url_path path).map (state_url_root ++ ·)

/-- `handle_read_reply` (lines 199-210). -/
def handle_read_reply (codec_service : CodecService) (reply : CppString)
    (root_schema : RootSchemaNode) (encoding : EncodingFormat) : Run (Option DataNode) := do
  let datanode ← codec_decode codec_service root_schema reply encoding
  match datanode with
  | none => do
    ylog .info "Codec service failed to decode datanode".toList []
    Run.throw (.YCPPError "Problems deserializing output".toList)
  | some d => pure (some d)

/-- `RestconfServiceProvider::handle_read` (lines 149-176). -/
def handle_read (codec_service : CodecService) (self : RestconfServiceProvider) (rpc : Rpc) :
    Run (Option DataNode) :=
  match rpc.input_find "filter".toList with
  | [] => do
    ylog .error "Failed to get entity node.".toList []
    Run.throw (.YCPPInvalidArgumentError "Failed to get entity node".toList)
  | filter_node :: _ => do
    let filter_instance := filter_node.get
    let datanode ← codec_decode codec_service self.root_schema filter_instance self.encoding
    let path ← first_child_schema_path datanode
    let url ← Run.ofExcept
      (read_url self.config_url_root self.state_url_root (is_config rpc) path)
    ylog .info "Performing GET on URL \x7b\x7d".toList [url]
    let reply ← client_execute self.client "GET".toList url "".toList
    handle_read_reply codec_service reply self.root_schema self.encoding

/-- `RestconfServiceProvider::handle_edit` (lines 178-197). -/
def handle_edit (codec_service : CodecService) (self : RestconfServiceProvider) (rpc : Rpc)
    (operation : CppString) : Run (Option DataNode) :=
  match rpc.input_find "entity".toList with
  | [] => do
    ylog .error "Failed to get entity node".toList []
    Run.throw (.YCPPInvalidArgumentError "Failed to get entity node".toList)
  | entity_node :: _ => do
    let header_data := entity_node.get
    let datanode ← codec_decode codec_service self.root_schema header_data self.encoding
    let path ← first_child_schema_path datanode
    let tail ← Run.ofExcept (get_module_url_path path)
    let url := self.config_url_root ++ tail
    ylog .info "Performing \x7b\x7d on URL \x7b\x7d. Payload: ".toList [operation, url, header_data]
    let _ ← client_execute self.client operation url header_data
    pure none

/-- `RestconfServiceProvider::invoke` (lines 95-124). -/
def invoke (codec_service : CodecService) (self : RestconfServiceProvider) (rpc : Rpc) :
    Run (Option DataNode) := do
  let create_schema ← get_schema_for_operation self.root_schema "ydk:create".toList
  let read_schema ← get_schema_for_operation self.root_schema "ydk:read".toList
  let update_schema ← get_schema_for_operation self.root_schema "ydk:update".toList
  let delete_schema ← get_schema_for_operation self.root_schema "ydk:delete".toList
  let rpc_schema := rpc.schema
  if rpc_schema = create_schema ∨ rpc_schema = update_schema then
    handle_edit codec_service self rpc self.edit_method
  else if rpc_schema = read_schema then
    handle_read codec_service self rpc
  else if rpc_schema = delete_schema then
    handle_edit codec_service self rpc "DELETE".toList
  else do
    ylog .error "rpc is not supported".toList []
    Run.throw (.YCPPOperationNotSupportedError "rpc is not supported!".toList)

/-! ## Observations on a trace -/

/-- One `execute` call seen by the transport. -/
structure TransportCall where
  method : CppString
  url : CppString
  body : CppString
  deriving DecidableEq, Repr

/-- The transport calls of a trace, in order. -/
def transport_calls : List Event → List TransportCall
  | [] => []
  | .execute m u b :: es => ⟨m, u, b⟩ :: transport_calls es
  | _ :: es => transport_calls es

/-- The codec calls (decode or encode) of a trace, in order. -/
def codec_calls : List Event → List Event
  | [] => []
  | .decode s e :: es => .decode s e :: codec_calls es
  | .encode e :: es => .encode e :: codec_calls es
  | _ :: es => codec_calls es

/-! ## Vocabulary of the claims -/

/-- The segment of `path` after its last `c`; all of `path` when `c` does not occur. -/
def segment_after_last (c : Char) (path : CppString) : CppString :=
  (path.reverse.takeWhile (fun x => decide (x ≠ c))).reverse

/-- The part of `path` before its first `c`; all of `path` when `c` does not occur. -/
def part_before_first (c : Char) (path : CppString) : CppString :=
  path.takeWhile (fun x => decide (x ≠ c))

/-- An operation name resolves to `n`: `n` is the first schema node found for it. -/
def resolves (root_schema : RootSchemaNode) (operation : CppString) (n : SchemaNode) : Prop :=
  (root_schema.find operation).head? = some n

/-- The four well-known operation names resolve, to `c`, `r`, `u` and `d`. -/
structure Resolved (root_schema : RootSchemaNode) (c r u d : SchemaNode) : Prop where
  create : resolves root_schema "ydk:create".toList c
  read : resolves root_schema "ydk:read".toList r
  update : resolves root_schema "ydk:update".toList u
  delete : resolves root_schema "ydk:delete".toList d

/-- The first child of the tree that the codec decodes from the value of the first
input node called `name`; `none` when the input has no such node, the decode
gives no tree, or the tree has no child. -/
def decoded_first_child (codec_service : CodecService) (self : RestconfServiceProvider)
    (rpc : Rpc) (name : CppString) : Option DataNode :=
  match rpc.input_find name with
  | [] => none
  | node :: _ =>
    match codec_service.decode self.root_schema node.get self.encoding with
    | none => none
    | some tree => tree.children.head?

/-- The string value of the first input node called `name`. -/
def input_value (rpc : Rpc) (name : CppString) : Option CppString :=
  (rpc.input_find name).head?.map DataNode.get

/-! ## A sample device

A schema tree in which the four operations resolve to the nodes 1, 2, 3 and 4, a
codec that decodes every non-empty payload to a tree with one top-level container,
and a client that answers every request. -/

/-- A schema tree with the four operations. -/
def sample_root : RootSchemaNode where
  find := fun operation =>
    if operation = "ydk:create".toList then [1]
    else if operation = "ydk:read".toList then [2]
    else if operation = "ydk:update".toList then [3]
    else if operation = "ydk:delete".toList then [4]
    else []

/-- A decoded tree: a root with the container `/ietf-interfaces:interfaces`. -/
def sample_tree : DataNode :=
  .mk [] [] [.mk "/ietf-interfaces:interfaces".toList [] []]

/-- A codec that decodes every non-empty payload to `sample_tree`. -/
def sample_codec : CodecService where
  decode := fun _ payload _ => if payload = [] then none else some sample_tree
  encode := fun _ _ _ => "<interfaces/>".toList

/-- A client that answers every request with the same reply. -/
def sample_client : RestconfClient where
  execute := fun _ _ _ => .ok "<interfaces/>".toList

/-- A provider over the sample collaborators. -/
def sample_provider : RestconfServiceProvider where
  client := sample_client
  root_schema := sample_root
  encoding := .XML
  edit_method := "PATCH".toList
  config_url_root := "/data".toList
  state_url_root := "/operational".toList

/-- An invocation of schema node `schema` with one input node `name` of value `value`. -/
def sample_rpc (schema : SchemaNode) (name value : CppString) : Rpc where
  schema := schema
  input_find := fun n => if n = name then [.mk n value []] else []

/-- The four well-known operation names, in the order `invoke` resolves them. -/
def operation_names : List CppString :=
  ["ydk:create".toList, "ydk:read".toList, "ydk:update".toList, "ydk:delete".toList]

/-- The first operation name, in the order of `invoke`, that the schema tree does
not have. -/
def first_absent (root_schema : RootSchemaNode) : Option CppString :=
  operation_names.find? (fun operation => (root_schema.find operation).isEmpty)

/-- Operation names that resolve to the same schema node are the same name. -/
def distinct_operations (root_schema : RootSchemaNode) : Prop :=
  ∀ op1 ∈ operation_names, ∀ op2 ∈ operation_names, ∀ n,
    resolves root_schema op1 n → resolves root_schema op2 n → op1 = op2

/-- A schema tree that has `ydk:create`, `ydk:read` and `ydk:update` but not
`ydk:delete`. -/
def root_without_delete : RootSchemaNode where
  find := fun operation =>
    if operation = "ydk:create".toList then [1]
    else if operation = "ydk:read".toList then [2]
    else if operation = "ydk:update".toList then [3]
    else []

/-- The sample provider over `root_without_delete`. -/
def provider_without_delete : RestconfServiceProvider where
  client := sample_client
  root_schema := root_without_delete
  encoding := .XML
  edit_method := "PATCH".toList
  config_url_root := "/data".toList
  state_url_root := "/operational".toList

/-- The invocations that `invoke` hands to `handle_edit`: the create/update arm, or
the delete arm, which is reached only past the read arm. -/
def routed_to_edit (c r u d : SchemaNode) (rpc_schema : SchemaNode) : Prop :=
  rpc_schema = c ∨ rpc_schema = u ∨ (rpc_schema = d ∧ rpc_schema ≠ r)

/-- The invocations that `invoke` hands to `handle_read`: the read arm, which is
reached only past the create/update arm. -/
def routed_to_read (c r u : SchemaNode) (rpc_schema : SchemaNode) : Prop :=
  rpc_schema = r ∧ rpc_schema ≠ c ∧ rpc_schema ≠ u

/-- A client whose every request fails. -/
def failing_client : RestconfClient where
  execute := fun _ _ _ => .error (.YCPPClientError "connection refused".toList)

/-- The sample provider over `failing_client`. -/
def provider_failing : RestconfServiceProvider where
  client := failing_client
  root_schema := sample_root
  encoding := .XML
  edit_method := "PATCH".toList
  config_url_root := "/data".toList
  state_url_root := "/operational".toList

/-- A codec that decodes every payload to a tree whose first child has the schema
path `a/b`, a path without module qualifier. -/
def codec_unqualified : CodecService where
  decode := fun _ _ _ => some (.mk [] [] [.mk "a/b".toList [] []])
  encode := fun _ _ _ => []

/-- A read invocation (schema node 2) that carries a filter and an `only-config`
node whose value is the empty string. -/
def rpc_only_config_empty : Rpc where
  schema := 2
  input_find := fun n =>
    if n = "filter".toList then [.mk n "<interfaces/>".toList []]
    else if n = "only-config".toList then [.mk n [] []]
    else []

/-! ## Strings: searching and slicing -/

theorem find_index_eq_none (c : Char) (s : CppString) :
    find_index c s = none ↔ c ∉ s := by
  induction s with
  | nil => simp [find_index]
  | cons x xs ih =>
    by_cases hx : x = c
    · simp [find_index, hx]
    · have : ¬ c = x := fun h => hx h.symm
      simp [find_index, hx, ih, this]

theorem find_index_some (c : Char) (s : CppString) (i : Nat) (h : find_index c s = some i) :
    i < s.length ∧ s.take i = part_before_first c s := by
  induction s generalizing i with
  | nil => simp [find_index] at h
  | cons x xs ih =>
    by_cases hx : x = c
    · simp [find_index, hx] at h
      subst h
      simp [part_before_first, hx]
    · simp only [find_index, hx, if_false, Option.map_eq_some'] at h
      obtain ⟨j, hj, rfl⟩ := h
      obtain ⟨h1, h2⟩ := ih j hj
      refine ⟨by simpa using h1, ?_⟩
      simp only [part_before_first] at h2 ⊢
      simp [hx, h2]

theorem part_before_first_of_not_mem (c : Char) (s : CppString) (h : c ∉ s) :
    part_before_first c s = s := by
  unfold part_before_first
  rw [List.takeWhile_eq_self_iff]
  intro x hx
  have : x ≠ c := fun e => h (e ▸ hx)
  simpa using this

theorem segment_after_last_of_not_mem (c : Char) (s : CppString) (h : c ∉ s) :
    segment_after_last c s = s := by
  unfold segment_after_last
  have : s.reverse.takeWhile (fun x => decide (x ≠ c)) = s.reverse := by
    rw [List.takeWhile_eq_self_iff]
    intro x hx
    have : x ≠ c := fun e => h (e ▸ (List.mem_reverse.mp hx))
    simpa using this
  rw [this, List.reverse_reverse]

theorem segment_after_last_append (c : Char) (pre tl : CppString) (h : c ∉ tl) :
    segment_after_last c (pre ++ c :: tl) = tl := by
  unfold segment_after_last
  have h1 : ∀ a ∈ tl.reverse, (fun x => decide (x ≠ c)) a = true := by
    intro a ha
    have : a ≠ c := fun e => h (e ▸ (List.mem_reverse.mp ha))
    simpa using this
  rw [List.reverse_append, List.reverse_cons, List.append_assoc,
    List.takeWhile_append_of_pos h1]
  simp

theorem find_last_index_eq_none (c : Char) (s : CppString) :
    find_last_index c s = none ↔ c ∉ s := by
  induction s with
  | nil => simp [find_last_index]
  | cons x xs ih =>
    cases hr : find_last_index c xs with
    | none =>
      have hc : c ∉ xs := ih.mp hr
      by_cases hx : x = c
      · simp [find_last_index, hr, hx]
      · have : ¬ c = x := fun h => hx h.symm
        simp [find_last_index, hr, hx, hc, this]
    | some j =>
      have hc : c ∈ xs := by
        by_contra hn
        rw [ih.mpr hn] at hr
        cases hr
      simp [find_last_index, hr, hc]

theorem find_last_index_some (c : Char) (s : CppString) (i : Nat)
    (h : find_last_index c s = some i) :
    ∃ pre tl, s = pre ++ c :: tl ∧ c ∉ tl ∧ pre.length = i := by
  induction s generalizing i with
  | nil => simp [find_last_index] at h
  | cons x xs ih =>
    cases hr : find_last_index c xs with
    | none =>
      have hc : c ∉ xs := (find_last_index_eq_none c xs).mp hr
      by_cases hx : x = c
      · simp [find_last_index, hr, hx] at h
        subst h
        exact ⟨[], xs, by simp [hx], hc, rfl⟩
      · simp [find_last_index, hr, hx] at h
    | some j =>
      simp [find_last_index, hr] at h
      subst h
      obtain ⟨pre, tl, h1, h2, h3⟩ := ih j hr
      exact ⟨x :: pre, tl, by simp [h1], h2, by simp [h3]⟩

theorem string_find_ne_npos (c : Char) (s : CppString) (hlen : s.length + 1 < 2 ^ 64) :
    string_find s c ≠ npos ↔ c ∈ s := by
  unfold string_find
  cases h : find_index c s with
  | none =>
    have := (find_index_eq_none c s).mp h
    simp [this]
  | some j =>
    have hmem : c ∈ s := by
      by_contra hn
      rw [(find_index_eq_none c s).mpr hn] at h
      cases h
    have hj := (find_index_some c s j h).1
    simp only [Option.getD_some, hmem, iff_true, npos]
    omega

theorem substr_tail (path : CppString) (hlen : path.length + 1 < 2 ^ 64) :
    substr path ((find_last_of path '/' + 1) % 2 ^ 64)
        ((path.length + 2 ^ 64 - find_last_of path '/') % 2 ^ 64)
      = .ok (segment_after_last '/' path) := by
  unfold find_last_of
  cases h : find_last_index '/' path with
  | none =>
    have hn := (find_last_index_eq_none '/' path).mp h
    rw [segment_after_last_of_not_mem '/' path hn]
    have h1 : (npos + 1) % 2 ^ 64 = 0 := by decide
    have h2 : (path.length + 2 ^ 64 - npos) % 2 ^ 64 = path.length + 1 := by
      unfold npos; omega
    simp only [Option.getD_none, h1, h2, substr]
    simp
  | some i =>
    obtain ⟨pre, tl, h1, h2, h3⟩ := find_last_index_some '/' path i h
    rw [h1, segment_after_last_append '/' pre tl h2]
    have hl : path.length = i + 1 + tl.length := by simp [h1, h3]; omega
    have e1 : (i + 1) % 2 ^ 64 = pre.length + 1 := by omega
    have e2 : ((pre ++ '/' :: tl).length + 2 ^ 64 - i) % 2 ^ 64 = tl.length + 1 := by
      rw [← h1]; omega
    simp only [Option.getD_some, e1, e2, substr]
    have e3 : ¬ (pre.length + 1 > (pre ++ '/' :: tl).length) := by simp
    rw [if_neg e3]
    have e4 : List.drop (pre.length + 1) (pre ++ '/' :: tl) = tl := by
      rw [List.drop_append]; rfl
    rw [e4, List.take_of_length_le (by omega)]

theorem substr_module (path : CppString) (hlen : path.length + 1 < 2 ^ 64) :
    substr path 0 (string_find path ':') = .ok (part_before_first ':' path) := by
  unfold string_find substr
  cases h : find_index ':' path with
  | none =>
    have hn := (find_index_eq_none ':' path).mp h
    rw [part_before_first_of_not_mem ':' path hn]
    simp only [Option.getD_none, List.drop_zero]
    rw [List.take_of_length_le (by unfold npos; omega)]
    simp
  | some j =>
    have := (find_index_some ':' path j h).2
    simp [this]

/-- What `get_module_url_path` computes, for every string that fits in memory. -/
theorem get_module_url_path_eq (path : CppString) (hlen : path.length + 1 < 2 ^ 64) :
    get_module_url_path path =
      .ok (if ':' ∈ segment_after_last '/' path then
            "/".toList ++ segment_after_last '/' path
          else
            part_before_first ':' path ++ ":".toList ++ segment_after_last '/' path) := by
  have hseg : (segment_after_last '/' path).length ≤ path.length := by
    unfold segment_after_last
    rw [List.length_reverse]
    exact (List.takeWhile_sublist _).length_le.trans (by simp)
  have hfind := string_find_ne_npos ':' (segment_after_last '/' path) (by omega)
  unfold get_module_url_path
  simp only [substr_tail path hlen, substr_module path hlen]
  by_cases hc : ':' ∈ segment_after_last '/' path
  · rw [if_pos (hfind.mpr hc), if_pos hc]
  · rw [if_neg (fun h => hc (hfind.mp h)), if_neg hc]

/-- The function `get_module_url_path` never throws. -/
theorem get_module_url_path_total (path : CppString) :
    ∃ s, get_module_url_path path = .ok s := by
  have hpos : (find_last_of path '/' + 1) % 2 ^ 64 ≤ path.length := by
    unfold find_last_of
    cases h : find_last_index '/' path with
    | none => simp [npos]
    | some i =>
      obtain ⟨pre, tl, h1, _, h3⟩ := find_last_index_some '/' path i h
      have hl : path.length = i + 1 + tl.length := by simp [h1, h3]; omega
      simp only [Option.getD_some]
      exact (Nat.mod_le _ _).trans (by omega)
  unfold get_module_url_path
  simp only [substr, Nat.not_lt.mpr hpos, if_false, gt_iff_lt, Nat.not_lt_zero]
  split <;> exact ⟨_, rfl⟩

/-! ## Running the dispatcher -/

theorem Run.bind_eq {α β : Type} (r : Run α) (f : α → Run β) : (r >>= f) = Run.bind r f := rfl

theorem Run.pure_eq {α : Type} (a : α) : (pure a : Run α) = ⟨.returned a, []⟩ := rfl

theorem Run.bind_returned {α β : Type} (a : α) (f : α → Run β) :
    Run.bind ⟨.returned a, []⟩ f = f a := by
  simp [Run.bind]

theorem get_schema_for_operation_resolved (root_schema : RootSchemaNode)
    (operation : CppString) (n : SchemaNode) (h : resolves root_schema operation n) :
    get_schema_for_operation root_schema operation = ⟨.returned n, []⟩ := by
  unfold resolves at h
  unfold get_schema_for_operation
  cases hf : root_schema.find operation with
  | nil => simp [hf] at h
  | cons x xs =>
    simp only [hf, List.head?_cons, Option.some.injEq] at h
    simp [h, Run.pure_eq]

theorem get_schema_for_operation_absent (root_schema : RootSchemaNode)
    (operation : CppString) (h : root_schema.find operation = []) :
    get_schema_for_operation root_schema operation =
      ⟨.threw (.YCPPIllegalStateError (operation ++ " rpc schema not found!".toList)),
        [.log .error "\x7b\x7d rpc schema not found!".toList [operation]]⟩ := by
  unfold get_schema_for_operation
  simp [h, Run.bind_eq, Run.bind, ylog, Run.throw]

/-- With the four operation names resolved, `invoke` is its chain of comparisons. -/
theorem invoke_resolved (codec_service : CodecService) (self : RestconfServiceProvider)
    (rpc : Rpc) (c r u d : SchemaNode) (h : Resolved self.root_schema c r u d) :
    invoke codec_service self rpc =
      if rpc.schema = c ∨ rpc.schema = u then
        handle_edit codec_service self rpc self.edit_method
      else if rpc.schema = r then
        handle_read codec_service self rpc
      else if rpc.schema = d then
        handle_edit codec_service self rpc "DELETE".toList
      else
        ⟨.threw (.YCPPOperationNotSupportedError "rpc is not supported!".toList),
          [.log .error "rpc is not supported".toList []]⟩ := by
  unfold invoke
  simp only [Run.bind_eq, get_schema_for_operation_resolved _ _ _ h.create,
    get_schema_for_operation_resolved _ _ _ h.read,
    get_schema_for_operation_resolved _ _ _ h.update,
    get_schema_for_operation_resolved _ _ _ h.delete, Run.bind_returned]
  split
  · rfl
  · split
    · rfl
    · split
      · rfl
      · simp [Run.bind, ylog, Run.throw]

theorem decoded_first_child_some (codec_service : CodecService)
    (self : RestconfServiceProvider) (rpc : Rpc) (name : CppString) (child : DataNode)
    (h : decoded_first_child codec_service self rpc name = some child) :
    ∃ node rest tree siblings, rpc.input_find name = node :: rest ∧
      codec_service.decode self.root_schema node.get self.encoding = some tree ∧
      tree.children = child :: siblings := by
  unfold decoded_first_child at h
  cases hf : rpc.input_find name with
  | nil => simp [hf] at h
  | cons node rest =>
    simp only [hf] at h
    cases hd : codec_service.decode self.root_schema node.get self.encoding with
    | none => simp [hd] at h
    | some tree =>
      simp only [hd] at h
      cases hc : tree.children with
      | nil => simp [hc] at h
      | cons x xs =>
        simp only [hc, List.head?_cons, Option.some.injEq] at h
        exact ⟨node, rest, tree, xs, rfl, hd, by rw [hc, h]⟩

/-- The edit path on a populated input: one decode, one log line, one transport call. -/
theorem handle_edit_run (codec_service : CodecService) (self : RestconfServiceProvider)
    (rpc : Rpc) (operation : CppString) (node tree child : DataNode)
    (rest siblings : List DataNode) (s : CppString)
    (hf : rpc.input_find "entity".toList = node :: rest)
    (hd : codec_service.decode self.root_schema node.get self.encoding = some tree)
    (hc : tree.children = child :: siblings)
    (hs : get_module_url_path child.schema_path = .ok s) :
    handle_edit codec_service self rpc operation =
      ⟨match self.client.execute operation (self.config_url_root ++ s) node.get with
        | .ok _ => .returned none
        | .error e => .threw e,
       [.decode node.get self.encoding,
        .log .info "Performing \x7b\x7d on URL \x7b\x7d. Payload: ".toList
          [operation, self.config_url_root ++ s, node.get],
        .execute operation (self.config_url_root ++ s) node.get]⟩ := by
  unfold handle_edit
  simp only [hf, Run.bind_eq, Run.bind, codec_decode, hd, first_child_schema_path, hc,
    Run.pure_eq, hs, Run.ofExcept, ylog, client_execute]
  cases self.client.execute operation (self.config_url_root ++ s) node.get <;> simp

/-- The read path on a populated input: what it returns and the calls it makes. -/
theorem handle_read_run (codec_service : CodecService) (self : RestconfServiceProvider)
    (rpc : Rpc) (node tree child : DataNode)
    (rest siblings : List DataNode) (url : CppString)
    (hf : rpc.input_find "filter".toList = node :: rest)
    (hd : codec_service.decode self.root_schema node.get self.encoding = some tree)
    (hc : tree.children = child :: siblings)
    (hs : read_url self.config_url_root self.state_url_root (is_config rpc)
      child.schema_path = .ok url) :
    handle_read codec_service self rpc =
      match self.client.execute "GET".toList url [] with
      | .error e =>
        ⟨.threw e, [.decode node.get self.encoding,
          .log .info "Performing GET on URL \x7b\x7d".toList [url],
          .execute "GET".toList url []]⟩
      | .ok reply =>
        match codec_service.decode self.root_schema reply self.encoding with
        | none =>
          ⟨.threw (.YCPPError "Problems deserializing output".toList),
            [.decode node.get self.encoding,
             .log .info "Performing GET on URL \x7b\x7d".toList [url],
             .execute "GET".toList url [],
             .decode reply self.encoding,
             .log .info "Codec service failed to decode datanode".toList []]⟩
        | some t =>
          ⟨.returned (some t),
            [.decode node.get self.encoding,
             .log .info "Performing GET on URL \x7b\x7d".toList [url],
             .execute "GET".toList url [],
             .decode reply self.encoding]⟩ := by
  unfold handle_read
  simp only [hf, Run.bind_eq, Run.bind, codec_decode, hd, first_child_schema_path, hc,
    Run.pure_eq, hs, Run.ofExcept, ylog, client_execute, handle_read_reply]
  have e0 : "".toList = ([] : List Char) := rfl
  rw [e0]
  cases self.client.execute "GET".toList url [] with
  | error e => simp
  | ok reply =>
    cases hr : codec_service.decode self.root_schema reply self.encoding <;>
      simp [hr, Run.throw, handle_read_reply, Run.bind_eq, Run.bind, codec_decode, ylog,
        Run.pure_eq]

theorem input_value_of_find (rpc : Rpc) (name : CppString) (node : DataNode)
    (rest : List DataNode) (h : rpc.input_find name = node :: rest) :
    input_value rpc name = some node.get := by
  simp [input_value, h]

/-- The transport and codec calls of the edit path on a populated input. -/
theorem handle_edit_calls (codec_service : CodecService) (self : RestconfServiceProvider)
    (rpc : Rpc) (operation : CppString) (child : DataNode)
    (h : decoded_first_child codec_service self rpc "entity".toList = some child) :
    ∃ s v, get_module_url_path child.schema_path = .ok s ∧
      input_value rpc "entity".toList = some v ∧
      transport_calls (handle_edit codec_service self rpc operation).trace =
        [⟨operation, self.config_url_root ++ s, v⟩] ∧
      codec_calls (handle_edit codec_service self rpc operation).trace =
        [.decode v self.encoding] := by
  obtain ⟨node, rest, tree, siblings, hf, hd, hc⟩ :=
    decoded_first_child_some codec_service self rpc _ child h
  obtain ⟨s, hs⟩ := get_module_url_path_total child.schema_path
  refine ⟨s, node.get, hs, input_value_of_find rpc _ node rest hf, ?_, ?_⟩ <;>
    rw [handle_edit_run codec_service self rpc operation node tree child rest siblings s
      hf hd hc hs] <;> rfl

theorem read_url_total (config_url_root state_url_root : CppString) (cfg : Bool)
    (path : CppString) :
    ∃ s, get_module_url_path path = .ok s ∧
      read_url config_url_root state_url_root cfg path =
        .ok ((if cfg then config_url_root else state_url_root) ++ s) := by
  obtain ⟨s, hs⟩ := get_module_url_path_total path
  refine ⟨s, hs, ?_⟩
  cases cfg <;> simp [read_url, hs, Except.map]

/-- The transport calls of the read path on a populated input. -/
theorem handle_read_calls (codec_service : CodecService) (self : RestconfServiceProvider)
    (rpc : Rpc) (child : DataNode)
    (h : decoded_first_child codec_service self rpc "filter".toList = some child) :
    ∃ s, get_module_url_path child.schema_path = .ok s ∧
      transport_calls (handle_read codec_service self rpc).trace =
        [⟨"GET".toList,
          (if is_config rpc then self.config_url_root else self.state_url_root) ++ s, []⟩] := by
  obtain ⟨node, rest, tree, siblings, hf, hd, hc⟩ :=
    decoded_first_child_some codec_service self rpc _ child h
  obtain ⟨s, hs, hu⟩ := read_url_total self.config_url_root self.state_url_root
    (is_config rpc) child.schema_path
  refine ⟨s, hs, ?_⟩
  rw [handle_read_run codec_service self rpc node tree child rest siblings _ hf hd hc hu]
  cases he : self.client.execute "GET".toList
      ((if is_config rpc then self.config_url_root else self.state_url_root) ++ s) [] with
  | error e => rfl
  | ok reply =>
    cases hr : codec_service.decode self.root_schema reply self.encoding <;>
      simp only [hr] <;> rfl

/-! ## The dispatcher: classification -/

/-- C1: in a dispatcher where `ydk:create`, `ydk:read`, `ydk:update` and `ydk:delete`
resolve (to `c`, `r`, `u`, `d`, the read and delete nodes being distinct from the
nodes compared before them), an invocation of one of the four whose required input
(`entity` for create/update/delete, `filter` for read) is present and decodes to a
tree with a first child makes exactly one transport call. Its method is `edit_method`
for create and update, `DELETE` for delete whatever `edit_method` is, `GET` for read. -/
theorem invoke_one_transport_call (codec_service : CodecService)
    (self : RestconfServiceProvider) (rpc : Rpc) (c r u d : SchemaNode)
    (hres : Resolved self.root_schema c r u d)
    (hrc : r ≠ c) (hru : r ≠ u) (hdc : d ≠ c) (hdu : d ≠ u) (hdr : d ≠ r)
    (hin : ((rpc.schema = c ∨ rpc.schema = u ∨ rpc.schema = d) ∧
        decoded_first_child codec_service self rpc "entity".toList ≠ none) ∨
      (rpc.schema = r ∧
        decoded_first_child codec_service self rpc "filter".toList ≠ none)) :
    ∃ call, transport_calls (invoke codec_service self rpc).trace = [call] ∧
      (rpc.schema = c ∨ rpc.schema = u → call.method = self.edit_method) ∧
      (rpc.schema = d → call.method = "DELETE".toList) ∧
      (rpc.schema = r → call.method = "GET".toList) := by
  rw [invoke_resolved codec_service self rpc c r u d hres]
  rcases hin with ⟨hs, hp⟩ | ⟨hs, hp⟩
  · obtain ⟨child, hchild⟩ := Option.ne_none_iff_exists'.mp hp
    by_cases hcu : rpc.schema = c ∨ rpc.schema = u
    · obtain ⟨s, v, _, _, ht, _⟩ :=
        handle_edit_calls codec_service self rpc self.edit_method child hchild
      refine ⟨_, by rw [if_pos hcu]; exact ht, fun _ => rfl, ?_, ?_⟩
      · intro hd; rcases hcu with h | h
        · exact absurd (hd.symm.trans h) hdc
        · exact absurd (hd.symm.trans h) hdu
      · intro hr; rcases hcu with h | h
        · exact absurd (hr.symm.trans h) hrc
        · exact absurd (hr.symm.trans h) hru
    · have hd : rpc.schema = d := by
        rcases hs with h | h | h
        · exact absurd (Or.inl h) hcu
        · exact absurd (Or.inr h) hcu
        · exact h
      have hnr : ¬ rpc.schema = r := fun h => hdr (hd.symm.trans h)
      obtain ⟨s, v, _, _, ht, _⟩ :=
        handle_edit_calls codec_service self rpc "DELETE".toList child hchild
      refine ⟨_, by rw [if_neg hcu, if_neg hnr, if_pos hd]; exact ht,
        fun h => absurd h hcu, fun _ => rfl, fun h => absurd h hnr⟩
  · obtain ⟨child, hchild⟩ := Option.ne_none_iff_exists'.mp hp
    have hcu : ¬ (rpc.schema = c ∨ rpc.schema = u) := by
      rintro (h | h)
      · exact hrc (hs.symm.trans h)
      · exact hru (hs.symm.trans h)
    obtain ⟨s, _, ht⟩ := handle_read_calls codec_service self rpc child hchild
    refine ⟨_, by rw [if_neg hcu, if_pos hs]; exact ht, fun h => absurd h hcu, ?_,
      fun _ => rfl⟩
    intro hd
    exact absurd (hd.symm.trans hs) hdr

/-- C1 at the sample device: a delete invocation with an entity is sent as `DELETE`
although the configured edit method is `PATCH`. -/
theorem invoke_one_transport_call_witness :
    ∃ call, transport_calls
        (invoke sample_codec sample_provider
          (sample_rpc 4 "entity".toList "<interfaces/>".toList)).trace = [call] ∧
      ((sample_rpc 4 "entity".toList "<interfaces/>".toList).schema = 1 ∨
        (sample_rpc 4 "entity".toList "<interfaces/>".toList).schema = 3 →
          call.method = sample_provider.edit_method) ∧
      ((sample_rpc 4 "entity".toList "<interfaces/>".toList).schema = 4 →
        call.method = "DELETE".toList) ∧
      ((sample_rpc 4 "entity".toList "<interfaces/>".toList).schema = 2 →
        call.method = "GET".toList) :=
  invoke_one_transport_call sample_codec sample_provider
    (sample_rpc 4 "entity".toList "<interfaces/>".toList) 1 2 3 4
    ⟨rfl, rfl, rfl, rfl⟩ (by decide) (by decide) (by decide) (by decide) (by decide)
    (Or.inl ⟨Or.inr (Or.inr rfl), by simp [decoded_first_child, sample_rpc, sample_codec, sample_tree, DataNode.get, DataNode.children]⟩)

/-- C2: with the four operation identities resolved (to `c`, `r`, `u`, `d`), an
invocation whose schema node is none of them fails with
`YCPPOperationNotSupportedError` and makes no transport call. -/
theorem invoke_unsupported (codec_service : CodecService)
    (self : RestconfServiceProvider) (rpc : Rpc) (c r u d : SchemaNode)
    (hres : Resolved self.root_schema c r u d)
    (hc : rpc.schema ≠ c) (hr : rpc.schema ≠ r) (hu : rpc.schema ≠ u)
    (hd : rpc.schema ≠ d) :
    (invoke codec_service self rpc).outcome =
        .threw (.YCPPOperationNotSupportedError "rpc is not supported!".toList) ∧
      transport_calls (invoke codec_service self rpc).trace = [] := by
  rw [invoke_resolved codec_service self rpc c r u d hres]
  have hcu : ¬ (rpc.schema = c ∨ rpc.schema = u) := by
    rintro (h | h)
    · exact hc h
    · exact hu h
  rw [if_neg hcu, if_neg hr, if_neg hd]
  exact ⟨rfl, rfl⟩

/-- C2 at the sample device: an invocation of schema node 9, which is none of the
nodes 1 to 4, is refused without a transport call. -/
theorem invoke_unsupported_witness :
    (invoke sample_codec sample_provider
        (sample_rpc 9 "entity".toList "<interfaces/>".toList)).outcome =
        .threw (.YCPPOperationNotSupportedError "rpc is not supported!".toList) ∧
      transport_calls (invoke sample_codec sample_provider
        (sample_rpc 9 "entity".toList "<interfaces/>".toList)).trace = [] :=
  invoke_unsupported sample_codec sample_provider
    (sample_rpc 9 "entity".toList "<interfaces/>".toList) 1 2 3 4
    ⟨rfl, rfl, rfl, rfl⟩ (by decide) (by decide) (by decide) (by decide)

/-! ## The dispatcher: absent operation schemas -/

/-- When an operation name is absent, `invoke` throws at the first absent one. -/
theorem invoke_absent (codec_service : CodecService) (self : RestconfServiceProvider)
    (rpc : Rpc) (operation : CppString)
    (h : first_absent self.root_schema = some operation) :
    invoke codec_service self rpc =
      ⟨.threw (.YCPPIllegalStateError (operation ++ " rpc schema not found!".toList)),
        [.log .error "\x7b\x7d rpc schema not found!".toList [operation]]⟩ := by
  unfold first_absent operation_names at h
  unfold invoke
  simp only [Run.bind_eq]
  cases h1 : self.root_schema.find "ydk:create".toList with
  | nil =>
    simp only [List.find?, h1, List.isEmpty_nil, Option.some.injEq] at h
    rw [← h, get_schema_for_operation_absent _ _ h1]
    rfl
  | cons c cs =>
    rw [get_schema_for_operation_resolved _ _ c (by unfold resolves; rw [h1]; rfl), Run.bind_returned]
    cases h2 : self.root_schema.find "ydk:read".toList with
    | nil =>
      simp only [List.find?, h1, h2, List.isEmpty_cons, List.isEmpty_nil,
        Option.some.injEq] at h
      rw [← h, get_schema_for_operation_absent _ _ h2]
      rfl
    | cons r rs =>
      rw [get_schema_for_operation_resolved _ _ r (by unfold resolves; rw [h2]; rfl),
        Run.bind_returned]
      cases h3 : self.root_schema.find "ydk:update".toList with
      | nil =>
        simp only [List.find?, h1, h2, h3, List.isEmpty_cons, List.isEmpty_nil,
          Option.some.injEq] at h
        rw [← h, get_schema_for_operation_absent _ _ h3]
        rfl
      | cons u us =>
        rw [get_schema_for_operation_resolved _ _ u (by unfold resolves; rw [h3]; rfl),
          Run.bind_returned]
        cases h4 : self.root_schema.find "ydk:delete".toList with
        | nil =>
          simp only [List.find?, h1, h2, h3, h4, List.isEmpty_cons, List.isEmpty_nil,
            Option.some.injEq] at h
          rw [← h, get_schema_for_operation_absent _ _ h4]
          rfl
        | cons d ds =>
          simp only [List.find?, h1, h2, h3, h4, List.isEmpty_cons, reduceCtorEq] at h

theorem first_absent_of_absent (root_schema : RootSchemaNode)
    (h : ∃ operation ∈ operation_names, root_schema.find operation = []) :
    ∃ operation ∈ operation_names, first_absent root_schema = some operation := by
  obtain ⟨op, hop, hf⟩ := h
  unfold first_absent
  cases hfa : operation_names.find? (fun operation => (root_schema.find operation).isEmpty) with
  | none =>
    have := List.find?_eq_none.mp hfa op hop
    simp [hf] at this
  | some x => exact ⟨x, List.mem_of_find?_eq_some hfa, rfl⟩

theorem resolved_of_present (root_schema : RootSchemaNode)
    (h : ∀ operation ∈ operation_names, root_schema.find operation ≠ []) :
    ∃ c r u d, Resolved root_schema c r u d := by
  have get : ∀ operation ∈ operation_names, ∃ n, resolves root_schema operation n := by
    intro op hop
    cases hf : root_schema.find op with
    | nil => exact absurd hf (h op hop)
    | cons x xs => exact ⟨x, by unfold resolves; rw [hf]; rfl⟩
  obtain ⟨c, hc⟩ := get "ydk:create".toList (by simp [operation_names])
  obtain ⟨r, hr⟩ := get "ydk:read".toList (by simp [operation_names])
  obtain ⟨u, hu⟩ := get "ydk:update".toList (by simp [operation_names])
  obtain ⟨d, hd⟩ := get "ydk:delete".toList (by simp [operation_names])
  exact ⟨c, r, u, d, hc, hr, hu, hd⟩

theorem resolves_unique (root_schema : RootSchemaNode) (operation : CppString)
    (n m : SchemaNode) (hn : resolves root_schema operation n)
    (hm : resolves root_schema operation m) : n = m := by
  unfold resolves at hn hm
  rw [hn] at hm
  exact Option.some.inj hm

/-- C3 as stated fails: in a schema tree that lacks only `ydk:delete`, a read
invocation whose own schema `ydk:read` resolves and whose filter is populated
does not reach the transport; `invoke` throws `YCPPIllegalStateError`. -/
theorem invoke_read_fails_without_delete :
    resolves provider_without_delete.root_schema "ydk:read".toList
        (sample_rpc 2 "filter".toList "<interfaces/>".toList).schema ∧
      decoded_first_child sample_codec provider_without_delete
        (sample_rpc 2 "filter".toList "<interfaces/>".toList) "filter".toList ≠ none ∧
      (invoke sample_codec provider_without_delete
        (sample_rpc 2 "filter".toList "<interfaces/>".toList)).outcome =
        .threw (.YCPPIllegalStateError "ydk:delete rpc schema not found!".toList) ∧
      transport_calls (invoke sample_codec provider_without_delete
        (sample_rpc 2 "filter".toList "<interfaces/>".toList)).trace = [] := by
  refine ⟨rfl, ?_, rfl, rfl⟩
  simp [decoded_first_child, sample_rpc, sample_codec, sample_tree, DataNode.get,
    DataNode.children]

/-- C3, amended: for an invocation whose own operation schema resolves and whose
input is populated (distinct operation names resolving to distinct nodes), `invoke`
reaches its one transport call exactly when all four operation schemas resolve;
when any of the four is absent it throws `YCPPIllegalStateError`, also for an
operation that is present. -/
theorem invoke_completes_iff_all_resolve (codec_service : CodecService)
    (self : RestconfServiceProvider) (rpc : Rpc)
    (hdist : distinct_operations self.root_schema)
    (hown : ((resolves self.root_schema "ydk:create".toList rpc.schema ∨
          resolves self.root_schema "ydk:update".toList rpc.schema ∨
          resolves self.root_schema "ydk:delete".toList rpc.schema) ∧
        decoded_first_child codec_service self rpc "entity".toList ≠ none) ∨
      (resolves self.root_schema "ydk:read".toList rpc.schema ∧
        decoded_first_child codec_service self rpc "filter".toList ≠ none)) :
    ((∃ call, transport_calls (invoke codec_service self rpc).trace = [call]) ↔
        ∀ operation ∈ operation_names, self.root_schema.find operation ≠ []) ∧
      ((∃ operation ∈ operation_names, self.root_schema.find operation = []) →
        ∃ msg, (invoke codec_service self rpc).outcome =
          .threw (.YCPPIllegalStateError msg)) := by
  have habs : (∃ operation ∈ operation_names, self.root_schema.find operation = []) →
      ∃ operation, invoke codec_service self rpc =
        ⟨.threw (.YCPPIllegalStateError (operation ++ " rpc schema not found!".toList)),
          [.log .error "\x7b\x7d rpc schema not found!".toList [operation]]⟩ := by
    intro h
    obtain ⟨op, _, hop⟩ := first_absent_of_absent self.root_schema h
    exact ⟨op, invoke_absent codec_service self rpc op hop⟩
  refine ⟨⟨?_, ?_⟩, ?_⟩
  · rintro ⟨call, hcall⟩ op hop hf
    obtain ⟨op2, h2⟩ := habs ⟨op, hop, hf⟩
    rw [h2] at hcall
    cases hcall
  · intro hall
    obtain ⟨c, r, u, d, hres⟩ := resolved_of_present self.root_schema hall
    have mem_c : "ydk:create".toList ∈ operation_names := by simp [operation_names]
    have mem_r : "ydk:read".toList ∈ operation_names := by simp [operation_names]
    have mem_u : "ydk:update".toList ∈ operation_names := by simp [operation_names]
    have mem_d : "ydk:delete".toList ∈ operation_names := by simp [operation_names]
    have hrc : r ≠ c := fun e => by
      have := hdist _ mem_r _ mem_c r hres.read (e ▸ hres.create)
      revert this; decide
    have hru : r ≠ u := fun e => by
      have := hdist _ mem_r _ mem_u r hres.read (e ▸ hres.update)
      revert this; decide
    have hdr : d ≠ r := fun e => by
      have := hdist _ mem_d _ mem_r d hres.delete (e ▸ hres.read)
      revert this; decide
    rw [invoke_resolved codec_service self rpc c r u d hres]
    rcases hown with ⟨hs, hp⟩ | ⟨hs, hp⟩
    · obtain ⟨child, hchild⟩ := Option.ne_none_iff_exists'.mp hp
      by_cases hcu : rpc.schema = c ∨ rpc.schema = u
      · obtain ⟨s, v, _, _, ht, _⟩ :=
          handle_edit_calls codec_service self rpc self.edit_method child hchild
        exact ⟨_, by rw [if_pos hcu]; exact ht⟩
      · have hd : rpc.schema = d := by
          rcases hs with h | h | h
          · exact absurd (Or.inl (resolves_unique _ _ _ _ h hres.create)) hcu
          · exact absurd (Or.inr (resolves_unique _ _ _ _ h hres.update)) hcu
          · exact resolves_unique _ _ _ _ h hres.delete
        have hnr : ¬ rpc.schema = r := fun h => hdr (hd.symm.trans h)
        obtain ⟨s, v, _, _, ht, _⟩ :=
          handle_edit_calls codec_service self rpc "DELETE".toList child hchild
        exact ⟨_, by rw [if_neg hcu, if_neg hnr, if_pos hd]; exact ht⟩
    · obtain ⟨child, hchild⟩ := Option.ne_none_iff_exists'.mp hp
      have hr : rpc.schema = r := resolves_unique _ _ _ _ hs hres.read
      have hcu : ¬ (rpc.schema = c ∨ rpc.schema = u) := by
        rintro (h | h)
        · exact hrc (hr.symm.trans h)
        · exact hru (hr.symm.trans h)
      obtain ⟨s, _, ht⟩ := handle_read_calls codec_service self rpc child hchild
      exact ⟨_, by rw [if_neg hcu, if_pos hr]; exact ht⟩
  · intro h
    obtain ⟨op, hop⟩ := habs h
    exact ⟨_, by rw [hop]⟩

theorem sample_root_distinct : distinct_operations sample_root := by
  intro op1 h1 op2 h2 n hn hm
  simp only [operation_names, List.mem_cons, List.mem_singleton, List.not_mem_nil,
    or_false] at h1 h2
  unfold resolves at hn hm
  rcases h1 with rfl | rfl | rfl | rfl <;> rcases h2 with rfl | rfl | rfl | rfl <;>
    first
    | rfl
    | (exfalso
       have e1 := Option.some.inj hn
       have e2 := Option.some.inj hm
       rw [← e2] at e1
       revert e1
       decide)

/-- C3, amended, at the sample device, where all four operations resolve: a delete
invocation with an entity reaches its transport call. -/
theorem invoke_completes_iff_all_resolve_witness :
    ((∃ call, transport_calls (invoke sample_codec sample_provider
          (sample_rpc 4 "entity".toList "<interfaces/>".toList)).trace = [call]) ↔
        ∀ operation ∈ operation_names, sample_provider.root_schema.find operation ≠ []) ∧
      ((∃ operation ∈ operation_names, sample_provider.root_schema.find operation = []) →
        ∃ msg, (invoke sample_codec sample_provider
          (sample_rpc 4 "entity".toList "<interfaces/>".toList)).outcome =
            .threw (.YCPPIllegalStateError msg)) :=
  invoke_completes_iff_all_resolve sample_codec sample_provider
    (sample_rpc 4 "entity".toList "<interfaces/>".toList) sample_root_distinct
    (Or.inl ⟨Or.inr (Or.inr rfl), by
      simp [decoded_first_child, sample_rpc, sample_codec, sample_tree, DataNode.get,
        DataNode.children]⟩)

/-! ## The dispatcher: missing input -/

theorem handle_edit_missing (codec_service : CodecService) (self : RestconfServiceProvider)
    (rpc : Rpc) (operation : CppString) (h : rpc.input_find "entity".toList = []) :
    handle_edit codec_service self rpc operation =
      ⟨.threw (.YCPPInvalidArgumentError "Failed to get entity node".toList),
        [.log .error "Failed to get entity node".toList []]⟩ := by
  unfold handle_edit
  simp only [h]
  rfl

theorem handle_read_missing (codec_service : CodecService) (self : RestconfServiceProvider)
    (rpc : Rpc) (h : rpc.input_find "filter".toList = []) :
    handle_read codec_service self rpc =
      ⟨.threw (.YCPPInvalidArgumentError "Failed to get entity node".toList),
        [.log .error "Failed to get entity node.".toList []]⟩ := by
  unfold handle_read
  simp only [h]
  rfl

/-- With the four names resolved, an invocation routed to the edit path runs
`handle_edit`, with the configured method or with `DELETE`. -/
theorem invoke_routed_to_edit (codec_service : CodecService)
    (self : RestconfServiceProvider) (rpc : Rpc) (c r u d : SchemaNode)
    (hres : Resolved self.root_schema c r u d)
    (h : routed_to_edit c r u d rpc.schema) :
    ∃ operation, (operation = self.edit_method ∨ operation = "DELETE".toList) ∧
      invoke codec_service self rpc = handle_edit codec_service self rpc operation := by
  rw [invoke_resolved codec_service self rpc c r u d hres]
  by_cases hcu : rpc.schema = c ∨ rpc.schema = u
  · exact ⟨_, Or.inl rfl, by rw [if_pos hcu]⟩
  · rcases h with h | h | ⟨hd, hr⟩
    · exact absurd (Or.inl h) hcu
    · exact absurd (Or.inr h) hcu
    · exact ⟨_, Or.inr rfl, by rw [if_neg hcu, if_neg hr, if_pos hd]⟩

/-- With the four names resolved, an invocation routed to the read path runs
`handle_read`. -/
theorem invoke_routed_to_read (codec_service : CodecService)
    (self : RestconfServiceProvider) (rpc : Rpc) (c r u d : SchemaNode)
    (hres : Resolved self.root_schema c r u d)
    (h : routed_to_read c r u rpc.schema) :
    invoke codec_service self rpc = handle_read codec_service self rpc := by
  rw [invoke_resolved codec_service self rpc c r u d hres]
  obtain ⟨hr, hc, hu⟩ := h
  have hcu : ¬ (rpc.schema = c ∨ rpc.schema = u) := by
    rintro (h | h)
    · exact hc h
    · exact hu h
  rw [if_neg hcu, if_pos hr]

/-- C4: an invocation routed to the edit path (create, update or delete) whose input
has no `entity` node, and an invocation routed to the read path whose input has no
`filter` node, fail with `YCPPInvalidArgumentError`; no transport call and no codec
call is made. -/
theorem invoke_missing_input (codec_service : CodecService)
    (self : RestconfServiceProvider) (rpc : Rpc) (c r u d : SchemaNode)
    (hres : Resolved self.root_schema c r u d)
    (h : (routed_to_edit c r u d rpc.schema ∧ rpc.input_find "entity".toList = []) ∨
      (routed_to_read c r u rpc.schema ∧ rpc.input_find "filter".toList = [])) :
    (invoke codec_service self rpc).outcome =
        .threw (.YCPPInvalidArgumentError "Failed to get entity node".toList) ∧
      transport_calls (invoke codec_service self rpc).trace = [] ∧
      codec_calls (invoke codec_service self rpc).trace = [] := by
  rcases h with ⟨hroute, hf⟩ | ⟨hroute, hf⟩
  · obtain ⟨op, _, hop⟩ := invoke_routed_to_edit codec_service self rpc c r u d hres hroute
    rw [hop, handle_edit_missing codec_service self rpc op hf]
    exact ⟨rfl, rfl, rfl⟩
  · rw [invoke_routed_to_read codec_service self rpc c r u d hres hroute,
      handle_read_missing codec_service self rpc hf]
    exact ⟨rfl, rfl, rfl⟩

/-- C4 at the sample device: a read invocation that carries an `entity` but no
`filter` is refused before any codec or transport call. -/
theorem invoke_missing_input_witness :
    (invoke sample_codec sample_provider
        (sample_rpc 2 "entity".toList "<interfaces/>".toList)).outcome =
        .threw (.YCPPInvalidArgumentError "Failed to get entity node".toList) ∧
      transport_calls (invoke sample_codec sample_provider
        (sample_rpc 2 "entity".toList "<interfaces/>".toList)).trace = [] ∧
      codec_calls (invoke sample_codec sample_provider
        (sample_rpc 2 "entity".toList "<interfaces/>".toList)).trace = [] :=
  invoke_missing_input sample_codec sample_provider
    (sample_rpc 2 "entity".toList "<interfaces/>".toList) 1 2 3 4 ⟨rfl, rfl, rfl, rfl⟩
    (Or.inr ⟨⟨rfl, by decide, by decide⟩, rfl⟩)

/-! ## URL derivation -/

theorem part_before_first_spec (c : Char) (s : CppString) (h : c ∈ s) :
    c ∉ part_before_first c s ∧ ∃ rest, s = part_before_first c s ++ c :: rest := by
  induction s with
  | nil => simp at h
  | cons x xs ih =>
    by_cases hx : x = c
    · subst hx
      exact ⟨by simp [part_before_first], xs, by simp [part_before_first]⟩
    · have hxs : c ∈ xs := by
        rcases List.mem_cons.mp h with e | e
        · exact absurd e.symm hx
        · exact e
      obtain ⟨h1, rest, h2⟩ := ih hxs
      have e : part_before_first c (x :: xs) = x :: part_before_first c xs := by
        simp [part_before_first, hx]
      rw [e]
      refine ⟨?_, rest, ?_⟩
      · intro hm
        rcases List.mem_cons.mp hm with e' | e'
        · exact hx e'.symm
        · exact h1 e'
      · rw [List.cons_append, ← h2]

theorem segment_after_last_spec (c : Char) (s : CppString) :
    c ∉ segment_after_last c s ∧
      ((c ∉ s ∧ segment_after_last c s = s) ∨
        ∃ pre, s = pre ++ c :: segment_after_last c s) := by
  cases h : find_last_index c s with
  | none =>
    have hn := (find_last_index_eq_none c s).mp h
    rw [segment_after_last_of_not_mem c s hn]
    exact ⟨hn, Or.inl ⟨hn, rfl⟩⟩
  | some i =>
    obtain ⟨pre, tl, h1, h2, _⟩ := find_last_index_some c s i h
    have e := segment_after_last_append c pre tl h2
    rw [← h1] at e
    rw [e]
    exact ⟨h2, Or.inr ⟨pre, h1⟩⟩

/-- C5: for a schema path that contains `:` (a `std::string`: its size and its
terminator fit in a `size_t`), with `tail` the segment after its last `/` and `m` the
part before its first `:`, `get_module_url_path` returns `"/" ++ tail` when `tail`
contains `:` and `m ++ ":" ++ tail` otherwise. In particular the path
`ietf-interfaces:interfaces/interface` resolved as config with the configuration
root `/data/` gives `/data/ietf-interfaces:interface`. -/
theorem get_module_url_path_spec (path : CppString) (hlen : path.length + 1 < 2 ^ 64)
    (hcolon : ':' ∈ path) :
    (':' ∉ part_before_first ':' path ∧
        ∃ rest, path = part_before_first ':' path ++ ':' :: rest) ∧
      ('/' ∉ segment_after_last '/' path ∧
        (('/' ∉ path ∧ segment_after_last '/' path = path) ∨
          ∃ pre, path = pre ++ '/' :: segment_after_last '/' path)) ∧
      get_module_url_path path =
        .ok (if ':' ∈ segment_after_last '/' path then
              "/".toList ++ segment_after_last '/' path
            else
              part_before_first ':' path ++ ":".toList ++ segment_after_last '/' path) ∧
      ∀ state_url_root, read_url "/data/".toList state_url_root true
          "ietf-interfaces:interfaces/interface".toList =
        .ok "/data/ietf-interfaces:interface".toList :=
  ⟨part_before_first_spec ':' path hcolon, segment_after_last_spec '/' path,
    get_module_url_path_eq path hlen, fun _ => rfl⟩

/-- C5 at the path `ietf-interfaces:interfaces/interface`. -/
theorem get_module_url_path_spec_witness :
    (':' ∉ part_before_first ':' "ietf-interfaces:interfaces/interface".toList ∧
        ∃ rest, "ietf-interfaces:interfaces/interface".toList =
          part_before_first ':' "ietf-interfaces:interfaces/interface".toList ++
            ':' :: rest) ∧
      ('/' ∉ segment_after_last '/' "ietf-interfaces:interfaces/interface".toList ∧
        (('/' ∉ "ietf-interfaces:interfaces/interface".toList ∧
            segment_after_last '/' "ietf-interfaces:interfaces/interface".toList =
              "ietf-interfaces:interfaces/interface".toList) ∨
          ∃ pre, "ietf-interfaces:interfaces/interface".toList =
            pre ++ '/' ::
              segment_after_last '/' "ietf-interfaces:interfaces/interface".toList)) ∧
      get_module_url_path "ietf-interfaces:interfaces/interface".toList =
        .ok (if ':' ∈ segment_after_last '/' "ietf-interfaces:interfaces/interface".toList
            then
              "/".toList ++
                segment_after_last '/' "ietf-interfaces:interfaces/interface".toList
            else
              part_before_first ':' "ietf-interfaces:interfaces/interface".toList ++
                ":".toList ++
                segment_after_last '/' "ietf-interfaces:interfaces/interface".toList) ∧
      ∀ state_url_root, read_url "/data/".toList state_url_root true
          "ietf-interfaces:interfaces/interface".toList =
        .ok "/data/ietf-interfaces:interface".toList :=
  get_module_url_path_spec "ietf-interfaces:interfaces/interface".toList
    (by decide) (by decide)

/-- C6 as stated fails: with the configuration root `/data/`, the path
`ietf-interfaces:interfaces/ietf-interfaces:interface`, whose final segment carries
the module qualifier, resolves as config to `/data//ietf-interfaces:interface`, not
to `/data/interface`. -/
theorem read_url_keeps_qualifier :
    segment_after_last '/' "ietf-interfaces:interfaces/ietf-interfaces:interface".toList =
        "ietf-interfaces:interface".toList ∧
      read_url "/data/".toList "/operational/".toList true
          "ietf-interfaces:interfaces/ietf-interfaces:interface".toList =
        .ok "/data//ietf-interfaces:interface".toList ∧
      read_url "/data/".toList "/operational/".toList true
          "ietf-interfaces:interfaces/ietf-interfaces:interface".toList ≠
        .ok "/data/interface".toList := by
  refine ⟨by decide, rfl, ?_⟩
  have e : read_url "/data/".toList "/operational/".toList true
      "ietf-interfaces:interfaces/ietf-interfaces:interface".toList =
        .ok "/data//ietf-interfaces:interface".toList := rfl
  rw [e]
  intro h
  have h2 := Except.ok.inj h
  revert h2
  decide

/-- C6, amended: with the configuration root `/data/`, every schema path (a
`std::string`) whose final segment is `ietf-interfaces:interface` resolves as config to
`/data//ietf-interfaces:interface`: the tail keeps its module qualifier and is
prefixed with `/`. -/
theorem read_url_qualified_tail (pre state_url_root : CppString)
    (hlen : (pre ++ "/ietf-interfaces:interface".toList).length + 1 < 2 ^ 64) :
    segment_after_last '/' (pre ++ "/ietf-interfaces:interface".toList) =
        "ietf-interfaces:interface".toList ∧
      read_url "/data/".toList state_url_root true
          (pre ++ "/ietf-interfaces:interface".toList) =
        .ok "/data//ietf-interfaces:interface".toList := by
  have hseg : segment_after_last '/' (pre ++ "/ietf-interfaces:interface".toList) =
      "ietf-interfaces:interface".toList :=
    segment_after_last_append '/' pre "ietf-interfaces:interface".toList (by decide)
  refine ⟨hseg, ?_⟩
  have hc : ':' ∈ "ietf-interfaces:interface".toList := by decide
  unfold read_url
  rw [if_pos rfl, get_module_url_path_eq _ hlen, hseg, if_pos hc]
  rfl

/-- C6, amended, at the path `ietf-interfaces:interfaces/ietf-interfaces:interface`. -/
theorem read_url_qualified_tail_witness :
    segment_after_last '/'
        ("ietf-interfaces:interfaces".toList ++ "/ietf-interfaces:interface".toList) =
        "ietf-interfaces:interface".toList ∧
      read_url "/data/".toList "/operational/".toList true
          ("ietf-interfaces:interfaces".toList ++ "/ietf-interfaces:interface".toList) =
        .ok "/data//ietf-interfaces:interface".toList :=
  read_url_qualified_tail "ietf-interfaces:interfaces".toList "/operational/".toList
    (by decide)

theorem is_config_eq (rpc : Rpc) :
    is_config rpc = true ↔ rpc.input_find "only-config".toList ≠ [] := by
  unfold is_config
  cases rpc.input_find "only-config".toList <;> simp

/-- C7 as stated fails: a read invocation with a decodable filter whose `only-config`
input is present with an empty value is sent to the configuration root `/data`, not
to the state root `/operational`: `is_config` tests that the node is there and never
reads its value. -/
theorem read_only_config_empty_value :
    routed_to_read 1 2 3 rpc_only_config_empty.schema ∧
      decoded_first_child sample_codec sample_provider rpc_only_config_empty
        "filter".toList ≠ none ∧
      input_value rpc_only_config_empty "only-config".toList = some [] ∧
      is_config rpc_only_config_empty = true ∧
      transport_calls (invoke sample_codec sample_provider rpc_only_config_empty).trace =
        [⟨"GET".toList, "/data/ietf-interfaces:interfaces".toList, []⟩] ∧
      sample_provider.config_url_root <+: "/data/ietf-interfaces:interfaces".toList ∧
      ¬ sample_provider.state_url_root <+: "/data/ietf-interfaces:interfaces".toList := by
  refine ⟨⟨rfl, by decide, by decide⟩, ?_, rfl, rfl, rfl, by decide, by decide⟩
  simp [decoded_first_child, rpc_only_config_empty, sample_codec, sample_tree,
    DataNode.get, DataNode.children]

/-- C7, amended: for a read invocation with a present, decodable filter, the one
locator passed to the transport starts with `config_url_root` when the `only-config`
input is present (its lookup in the input is non-empty, whatever the value of the
node, also an empty one), and with `state_url_root` when it is absent (the lookup is
empty); the rest of the locator is the module URL path of the filter tree's first
child. -/
theorem read_locator_root (codec_service : CodecService)
    (self : RestconfServiceProvider) (rpc : Rpc) (c r u d : SchemaNode)
    (child : DataNode)
    (hres : Resolved self.root_schema c r u d)
    (hroute : routed_to_read c r u rpc.schema)
    (hin : decoded_first_child codec_service self rpc "filter".toList = some child) :
    ∃ call s, transport_calls (invoke codec_service self rpc).trace = [call] ∧
      get_module_url_path child.schema_path = .ok s ∧
      (rpc.input_find "only-config".toList ≠ [] →
        self.config_url_root <+: call.url ∧ call.url = self.config_url_root ++ s) ∧
      (rpc.input_find "only-config".toList = [] →
        self.state_url_root <+: call.url ∧ call.url = self.state_url_root ++ s) := by
  rw [invoke_routed_to_read codec_service self rpc c r u d hres hroute]
  obtain ⟨s, hs, ht⟩ := handle_read_calls codec_service self rpc child hin
  refine ⟨_, s, ht, hs, ?_, ?_⟩
  · intro h
    have hc : is_config rpc = true := (is_config_eq rpc).mpr h
    rw [if_pos hc]
    exact ⟨List.prefix_append _ _, rfl⟩
  · intro h
    have hc : ¬ is_config rpc = true := fun e => (is_config_eq rpc).mp e h
    rw [if_neg hc]
    exact ⟨List.prefix_append _ _, rfl⟩

/-- C7, amended, at the sample device: a read invocation that carries a filter and no
`only-config` is sent to the state root `/operational`. -/
theorem read_locator_root_witness :
    ∃ call s, transport_calls (invoke sample_codec sample_provider
          (sample_rpc 2 "filter".toList "<interfaces/>".toList)).trace = [call] ∧
      get_module_url_path
          (DataNode.mk "/ietf-interfaces:interfaces".toList [] []).schema_path = .ok s ∧
      ((sample_rpc 2 "filter".toList "<interfaces/>".toList).input_find
          "only-config".toList ≠ [] →
        sample_provider.config_url_root <+: call.url ∧
          call.url = sample_provider.config_url_root ++ s) ∧
      ((sample_rpc 2 "filter".toList "<interfaces/>".toList).input_find
          "only-config".toList = [] →
        sample_provider.state_url_root <+: call.url ∧
          call.url = sample_provider.state_url_root ++ s) :=
  read_locator_root sample_codec sample_provider
    (sample_rpc 2 "filter".toList "<interfaces/>".toList) 1 2 3 4
    (DataNode.mk "/ietf-interfaces:interfaces".toList [] [])
    ⟨rfl, rfl, rfl, rfl⟩ ⟨rfl, by decide, by decide⟩ rfl

/-- C8: for every schema path `p` and roots `cr`, `sr` there is one suffix
`s = get_module_url_path p` such that the config locator is `cr ++ s` and the state
locator is `sr ++ s`; and two resolutions with the same arguments give the same
output. -/
theorem read_url_flag_changes_root_only (p cr sr : CppString) :
    (∃ s, get_module_url_path p = .ok s ∧
        read_url cr sr true p = .ok (cr ++ s) ∧
        read_url cr sr false p = .ok (sr ++ s)) ∧
      ∀ (cfg : Bool) (out1 out2 : Except YError CppString),
        read_url cr sr cfg p = out1 → read_url cr sr cfg p = out2 → out1 = out2 := by
  refine ⟨?_, fun _ _ _ h1 h2 => h1.symm.trans h2⟩
  obtain ⟨s, hs⟩ := get_module_url_path_total p
  exact ⟨s, hs, by simp [read_url, hs, Except.map], by simp [read_url, hs, Except.map]⟩

/-- C9: for an edit invocation (create, update or delete) with a present, decodable
entity, the one locator passed to the transport is `config_url_root` followed by the
module URL path of the first child of the decoded entity tree, whatever the input
holds under `only-config` and whatever `state_url_root` is. -/
theorem edit_locator (codec_service : CodecService)
    (self : RestconfServiceProvider) (rpc : Rpc) (c r u d : SchemaNode)
    (child : DataNode)
    (hres : Resolved self.root_schema c r u d)
    (hroute : routed_to_edit c r u d rpc.schema)
    (hin : decoded_first_child codec_service self rpc "entity".toList = some child) :
    ∃ call s, transport_calls (invoke codec_service self rpc).trace = [call] ∧
      get_module_url_path child.schema_path = .ok s ∧
      call.url = self.config_url_root ++ s := by
  obtain ⟨op, _, hop⟩ := invoke_routed_to_edit codec_service self rpc c r u d hres hroute
  obtain ⟨s, v, hs, _, ht, _⟩ := handle_edit_calls codec_service self rpc op child hin
  rw [hop]
  exact ⟨_, s, ht, hs, rfl⟩

/-- C9 at the sample device: an update invocation with an entity. -/
theorem edit_locator_witness :
    ∃ call s, transport_calls (invoke sample_codec sample_provider
          (sample_rpc 3 "entity".toList "<interfaces/>".toList)).trace = [call] ∧
      get_module_url_path
          (DataNode.mk "/ietf-interfaces:interfaces".toList [] []).schema_path = .ok s ∧
      call.url = sample_provider.config_url_root ++ s :=
  edit_locator sample_codec sample_provider
    (sample_rpc 3 "entity".toList "<interfaces/>".toList) 1 2 3 4
    (DataNode.mk "/ietf-interfaces:interfaces".toList [] [])
    ⟨rfl, rfl, rfl, rfl⟩ (Or.inr (Or.inl rfl)) rfl

/-- C10 as stated fails: for a create invocation whose entity value is
`<interfaces />`, the body sent to the transport is that value, not the string
`<interfaces/>` that the codec encodes the decoded entity tree to; the only codec
call is the decode of the entity value. -/
theorem edit_body_is_not_encoded :
    decoded_first_child sample_codec sample_provider
        (sample_rpc 1 "entity".toList "<interfaces />".toList) "entity".toList ≠ none ∧
      sample_codec.decode sample_provider.root_schema "<interfaces />".toList
        sample_provider.encoding = some sample_tree ∧
      sample_codec.encode sample_provider.root_schema sample_tree
        sample_provider.encoding = "<interfaces/>".toList ∧
      transport_calls (invoke sample_codec sample_provider
          (sample_rpc 1 "entity".toList "<interfaces />".toList)).trace =
        [⟨"PATCH".toList, "/data/ietf-interfaces:interfaces".toList,
          "<interfaces />".toList⟩] ∧
      "<interfaces />".toList ≠ "<interfaces/>".toList ∧
      codec_calls (invoke sample_codec sample_provider
          (sample_rpc 1 "entity".toList "<interfaces />".toList)).trace =
        [.decode "<interfaces />".toList .XML] := by
  refine ⟨?_, rfl, rfl, rfl, by decide, rfl⟩
  simp [decoded_first_child, sample_rpc, sample_codec, sample_tree, DataNode.get,
    DataNode.children]

/-- C10, amended: on the edit path the dispatcher makes one codec call, the decode of
the string value of the `entity` input with the configured `EncodingFormat`, and the
body of the write request issued to the transport is that string value as the caller
supplied it. -/
theorem edit_body_is_entity_value (codec_service : CodecService)
    (self : RestconfServiceProvider) (rpc : Rpc) (c r u d : SchemaNode)
    (hres : Resolved self.root_schema c r u d)
    (hroute : routed_to_edit c r u d rpc.schema)
    (hin : decoded_first_child codec_service self rpc "entity".toList ≠ none) :
    ∃ call v, input_value rpc "entity".toList = some v ∧
      codec_calls (invoke codec_service self rpc).trace = [.decode v self.encoding] ∧
      transport_calls (invoke codec_service self rpc).trace = [call] ∧
      call.body = v := by
  obtain ⟨child, hchild⟩ := Option.ne_none_iff_exists'.mp hin
  obtain ⟨op, _, hop⟩ := invoke_routed_to_edit codec_service self rpc c r u d hres hroute
  obtain ⟨s, v, _, hv, ht, hcodec⟩ :=
    handle_edit_calls codec_service self rpc op child hchild
  rw [hop]
  exact ⟨_, v, hv, hcodec, ht, rfl⟩

/-- C10, amended, at the sample device: a create invocation whose entity value is
`<interfaces />`. -/
theorem edit_body_is_entity_value_witness :
    ∃ call v, input_value (sample_rpc 1 "entity".toList "<interfaces />".toList)
          "entity".toList = some v ∧
      codec_calls (invoke sample_codec sample_provider
          (sample_rpc 1 "entity".toList "<interfaces />".toList)).trace =
        [.decode v sample_provider.encoding] ∧
      transport_calls (invoke sample_codec sample_provider
          (sample_rpc 1 "entity".toList "<interfaces />".toList)).trace = [call] ∧
      call.body = v :=
  edit_body_is_entity_value sample_codec sample_provider
    (sample_rpc 1 "entity".toList "<interfaces />".toList) 1 2 3 4
    ⟨rfl, rfl, rfl, rfl⟩ (Or.inl rfl) (by
      simp [decoded_first_child, sample_rpc, sample_codec, sample_tree, DataNode.get,
        DataNode.children])

/-! ## The dispatcher: every path through `invoke` -/

/-- The edit path either makes no transport call or has a populated input. -/
theorem handle_edit_cases (codec_service : CodecService) (self : RestconfServiceProvider)
    (rpc : Rpc) (operation : CppString) :
    transport_calls (handle_edit codec_service self rpc operation).trace = [] ∨
      ∃ child, decoded_first_child codec_service self rpc "entity".toList = some child := by
  unfold decoded_first_child
  cases hf : rpc.input_find "entity".toList with
  | nil =>
    left
    rw [handle_edit_missing codec_service self rpc operation hf]
    rfl
  | cons node rest =>
    cases hd : codec_service.decode self.root_schema node.get self.encoding with
    | none =>
      left
      unfold handle_edit
      simp only [hf, Run.bind_eq, Run.bind, codec_decode, hd, first_child_schema_path,
        Run.ub]
      rfl
    | some tree =>
      cases hc : tree.children with
      | nil =>
        left
        unfold handle_edit
        simp only [hf, Run.bind_eq, Run.bind, codec_decode, hd, first_child_schema_path,
          hc, Run.ub]
        rfl
      | cons child siblings =>
        right
        exact ⟨child, by simp only [hd, hc, List.head?_cons]⟩

/-- The read path either makes no transport call or has a populated input. -/
theorem handle_read_cases (codec_service : CodecService) (self : RestconfServiceProvider)
    (rpc : Rpc) :
    transport_calls (handle_read codec_service self rpc).trace = [] ∨
      ∃ child, decoded_first_child codec_service self rpc "filter".toList = some child := by
  unfold decoded_first_child
  cases hf : rpc.input_find "filter".toList with
  | nil =>
    left
    rw [handle_read_missing codec_service self rpc hf]
    rfl
  | cons node rest =>
    cases hd : codec_service.decode self.root_schema node.get self.encoding with
    | none =>
      left
      unfold handle_read
      simp only [hf, Run.bind_eq, Run.bind, codec_decode, hd, first_child_schema_path,
        Run.ub]
      rfl
    | some tree =>
      cases hc : tree.children with
      | nil =>
        left
        unfold handle_read
        simp only [hf, Run.bind_eq, Run.bind, codec_decode, hd, first_child_schema_path,
          hc, Run.ub]
        rfl
      | cons child siblings =>
        right
        exact ⟨child, by simp only [hd, hc, List.head?_cons]⟩

/-- Every run of `invoke` makes no transport call, or is the edit path on a populated
input, or is the read path on a populated input. -/
theorem invoke_cases (codec_service : CodecService) (self : RestconfServiceProvider)
    (rpc : Rpc) :
    transport_calls (invoke codec_service self rpc).trace = [] ∨
      (∃ operation child,
        invoke codec_service self rpc = handle_edit codec_service self rpc operation ∧
        decoded_first_child codec_service self rpc "entity".toList = some child) ∨
      (∃ child, invoke codec_service self rpc = handle_read codec_service self rpc ∧
        decoded_first_child codec_service self rpc "filter".toList = some child) := by
  by_cases habs : ∃ operation ∈ operation_names, self.root_schema.find operation = []
  · obtain ⟨op, _, hop⟩ := first_absent_of_absent self.root_schema habs
    left
    rw [invoke_absent codec_service self rpc op hop]
    rfl
  · have hall : ∀ operation ∈ operation_names, self.root_schema.find operation ≠ [] :=
      fun op hop hf => habs ⟨op, hop, hf⟩
    obtain ⟨c, r, u, d, hres⟩ := resolved_of_present self.root_schema hall
    have hinv := invoke_resolved codec_service self rpc c r u d hres
    by_cases h1 : rpc.schema = c ∨ rpc.schema = u
    · rw [if_pos h1] at hinv
      rcases handle_edit_cases codec_service self rpc self.edit_method with h | ⟨child, h⟩
      · left; rw [hinv]; exact h
      · right; left; exact ⟨_, child, hinv, h⟩
    · rw [if_neg h1] at hinv
      by_cases h2 : rpc.schema = r
      · rw [if_pos h2] at hinv
        rcases handle_read_cases codec_service self rpc with h | ⟨child, h⟩
        · left; rw [hinv]; exact h
        · right; right; exact ⟨child, hinv, h⟩
      · rw [if_neg h2] at hinv
        by_cases h3 : rpc.schema = d
        · rw [if_pos h3] at hinv
          rcases handle_edit_cases codec_service self rpc "DELETE".toList with h | ⟨child, h⟩
          · left; rw [hinv]; exact h
          · right; left; exact ⟨_, child, hinv, h⟩
        · rw [if_neg h3] at hinv
          left
          rw [hinv]
          rfl

/-- The edit path on a populated input, as one record. -/
theorem handle_edit_populated (codec_service : CodecService)
    (self : RestconfServiceProvider) (rpc : Rpc) (operation : CppString) (child : DataNode)
    (h : decoded_first_child codec_service self rpc "entity".toList = some child) :
    ∃ url v, input_value rpc "entity".toList = some v ∧
      handle_edit codec_service self rpc operation =
        ⟨match self.client.execute operation url v with
          | .ok _ => .returned none
          | .error e => .threw e,
         [.decode v self.encoding,
          .log .info "Performing \x7b\x7d on URL \x7b\x7d. Payload: ".toList
            [operation, url, v],
          .execute operation url v]⟩ := by
  obtain ⟨node, rest, tree, siblings, hf, hd, hc⟩ :=
    decoded_first_child_some codec_service self rpc _ child h
  obtain ⟨s, hs⟩ := get_module_url_path_total child.schema_path
  exact ⟨self.config_url_root ++ s, node.get, input_value_of_find rpc _ node rest hf,
    handle_edit_run codec_service self rpc operation node tree child rest siblings s
      hf hd hc hs⟩

/-- The read path on a populated input, as one record per result of the transport
and of the decode of the reply. -/
theorem handle_read_populated (codec_service : CodecService)
    (self : RestconfServiceProvider) (rpc : Rpc) (child : DataNode)
    (h : decoded_first_child codec_service self rpc "filter".toList = some child) :
    ∃ url v, input_value rpc "filter".toList = some v ∧
      handle_read codec_service self rpc =
        match self.client.execute "GET".toList url [] with
        | .error e =>
          ⟨.threw e, [.decode v self.encoding,
            .log .info "Performing GET on URL \x7b\x7d".toList [url],
            .execute "GET".toList url []]⟩
        | .ok reply =>
          match codec_service.decode self.root_schema reply self.encoding with
          | none =>
            ⟨.threw (.YCPPError "Problems deserializing output".toList),
              [.decode v self.encoding,
               .log .info "Performing GET on URL \x7b\x7d".toList [url],
               .execute "GET".toList url [],
               .decode reply self.encoding,
               .log .info "Codec service failed to decode datanode".toList []]⟩
          | some t =>
            ⟨.returned (some t),
              [.decode v self.encoding,
               .log .info "Performing GET on URL \x7b\x7d".toList [url],
               .execute "GET".toList url [],
               .decode reply self.encoding]⟩ := by
  obtain ⟨node, rest, tree, siblings, hf, hd, hc⟩ :=
    decoded_first_child_some codec_service self rpc _ child h
  obtain ⟨s, _, hu⟩ := read_url_total self.config_url_root self.state_url_root
    (is_config rpc) child.schema_path
  exact ⟨_, node.get, input_value_of_find rpc _ node rest hf,
    handle_read_run codec_service self rpc node tree child rest siblings _ hf hd hc hu⟩

/-! ## The dispatcher: replies and failures of the transport -/

/-- C11: for a read invocation (filter present and decodable, so that the transport
is reached) whose transport call succeeds with `reply`, `invoke` decodes `reply`
against the schema tree with the configured `EncodingFormat`; it returns exactly the
decoded tree, and when the decode gives no tree it throws `YCPPError` instead of
returning an absent result. -/
theorem read_reply_decoded (codec_service : CodecService)
    (self : RestconfServiceProvider) (rpc : Rpc) (c r u d : SchemaNode)
    (reply : CppString)
    (hres : Resolved self.root_schema c r u d)
    (hroute : routed_to_read c r u rpc.schema)
    (hin : decoded_first_child codec_service self rpc "filter".toList ≠ none)
    (hexec : ∀ call ∈ transport_calls (invoke codec_service self rpc).trace,
      self.client.execute call.method call.url call.body = .ok reply) :
    (∃ v, codec_calls (invoke codec_service self rpc).trace =
        [.decode v self.encoding, .decode reply self.encoding]) ∧
      (∀ tree, codec_service.decode self.root_schema reply self.encoding = some tree →
        (invoke codec_service self rpc).outcome = .returned (some tree)) ∧
      (codec_service.decode self.root_schema reply self.encoding = none →
        (invoke codec_service self rpc).outcome =
          .threw (.YCPPError "Problems deserializing output".toList)) := by
  obtain ⟨child, hchild⟩ := Option.ne_none_iff_exists'.mp hin
  rw [invoke_routed_to_read codec_service self rpc c r u d hres hroute] at hexec ⊢
  obtain ⟨url, v, _, hrun⟩ := handle_read_populated codec_service self rpc child hchild
  have hcall : self.client.execute "GET".toList url [] = .ok reply := by
    apply hexec ⟨"GET".toList, url, []⟩
    rw [hrun]
    cases he : self.client.execute "GET".toList url [] with
    | error e => simp [transport_calls]
    | ok reply2 =>
      cases hr : codec_service.decode self.root_schema reply2 self.encoding <;>
        simp [hr, transport_calls]
  rw [hrun, hcall]
  refine ⟨⟨v, ?_⟩, ?_, ?_⟩
  · cases hr : codec_service.decode self.root_schema reply self.encoding <;>
      simp only [hr] <;> rfl
  · intro tree ht
    simp only [ht]
  · intro hn
    simp only [hn]

/-- C11 at the sample device: the reply `<interfaces/>` is decoded and returned. -/
theorem read_reply_decoded_witness :
    (∃ v, codec_calls (invoke sample_codec sample_provider
          (sample_rpc 2 "filter".toList "<interfaces/>".toList)).trace =
        [.decode v sample_provider.encoding,
          .decode "<interfaces/>".toList sample_provider.encoding]) ∧
      (∀ tree, sample_codec.decode sample_provider.root_schema "<interfaces/>".toList
          sample_provider.encoding = some tree →
        (invoke sample_codec sample_provider
          (sample_rpc 2 "filter".toList "<interfaces/>".toList)).outcome =
            .returned (some tree)) ∧
      (sample_codec.decode sample_provider.root_schema "<interfaces/>".toList
          sample_provider.encoding = none →
        (invoke sample_codec sample_provider
          (sample_rpc 2 "filter".toList "<interfaces/>".toList)).outcome =
            .threw (.YCPPError "Problems deserializing output".toList)) :=
  read_reply_decoded sample_codec sample_provider
    (sample_rpc 2 "filter".toList "<interfaces/>".toList) 1 2 3 4 "<interfaces/>".toList
    ⟨rfl, rfl, rfl, rfl⟩ ⟨rfl, by decide, by decide⟩
    (by simp [decoded_first_child, sample_rpc, sample_codec, sample_tree, DataNode.get,
      DataNode.children])
    (fun _ _ => rfl)

/-- C12: when a transport call of an invocation fails with error `e`, `invoke` throws
that same error, so returns no result, and that call is the only transport call it
made; and no run of `invoke` makes more than one transport call. -/
theorem transport_failure_propagates (codec_service : CodecService)
    (self : RestconfServiceProvider) (rpc : Rpc) (call : TransportCall) (e : YError)
    (hcall : call ∈ transport_calls (invoke codec_service self rpc).trace)
    (hfail : self.client.execute call.method call.url call.body = .error e) :
    (invoke codec_service self rpc).outcome = .threw e ∧
      transport_calls (invoke codec_service self rpc).trace = [call] ∧
      ∀ (codec2 : CodecService) (self2 : RestconfServiceProvider) (rpc2 : Rpc),
        (transport_calls (invoke codec2 self2 rpc2).trace).length ≤ 1 := by
  refine ⟨?_, ?_, ?_⟩
  · rcases invoke_cases codec_service self rpc with h | ⟨op, child, hinv, hchild⟩ |
      ⟨child, hinv, hchild⟩
    · rw [h] at hcall; cases hcall
    · obtain ⟨url, v, _, hrun⟩ :=
        handle_edit_populated codec_service self rpc op child hchild
      rw [hinv, hrun] at hcall ⊢
      have hc : call = ⟨op, url, v⟩ := List.mem_singleton.mp hcall
      subst hc
      simp only [hfail]
    · obtain ⟨url, v, _, hrun⟩ := handle_read_populated codec_service self rpc child hchild
      have ht : transport_calls (handle_read codec_service self rpc).trace =
          [⟨"GET".toList, url, []⟩] := by
        rw [hrun]
        cases he : self.client.execute "GET".toList url [] with
        | error e => rfl
        | ok reply2 =>
          cases hr : codec_service.decode self.root_schema reply2 self.encoding <;>
            simp only [hr] <;> rfl
      rw [hinv, ht] at hcall
      have hc : call = ⟨"GET".toList, url, []⟩ := List.mem_singleton.mp hcall
      subst hc
      rw [hinv, hrun]
      simp only [hfail]
  · rcases invoke_cases codec_service self rpc with h | ⟨op, child, hinv, hchild⟩ |
      ⟨child, hinv, hchild⟩
    · rw [h] at hcall; cases hcall
    · obtain ⟨s, v, _, _, ht, _⟩ := handle_edit_calls codec_service self rpc op child hchild
      rw [hinv, ht] at hcall ⊢
      rw [List.mem_singleton.mp hcall]
    · obtain ⟨s, _, ht⟩ := handle_read_calls codec_service self rpc child hchild
      rw [hinv, ht] at hcall ⊢
      rw [List.mem_singleton.mp hcall]
  · intro codec2 self2 rpc2
    rcases invoke_cases codec2 self2 rpc2 with h | ⟨op, child, hinv, hchild⟩ |
      ⟨child, hinv, hchild⟩
    · rw [h]; exact Nat.zero_le _
    · obtain ⟨s, v, _, _, ht, _⟩ := handle_edit_calls codec2 self2 rpc2 op child hchild
      rw [hinv, ht]; exact Nat.le_refl _
    · obtain ⟨s, _, ht⟩ := handle_read_calls codec2 self2 rpc2 child hchild
      rw [hinv, ht]; exact Nat.le_refl _

/-- C12 at the sample device with a client that refuses every request: the read
invocation throws the client's error after its one `GET`. -/
theorem transport_failure_propagates_witness :
    (invoke sample_codec provider_failing
        (sample_rpc 2 "filter".toList "<interfaces/>".toList)).outcome =
        .threw (.YCPPClientError "connection refused".toList) ∧
      transport_calls (invoke sample_codec provider_failing
          (sample_rpc 2 "filter".toList "<interfaces/>".toList)).trace =
        [⟨"GET".toList, "/operational/ietf-interfaces:interfaces".toList, []⟩] ∧
      ∀ (codec2 : CodecService) (self2 : RestconfServiceProvider) (rpc2 : Rpc),
        (transport_calls (invoke codec2 self2 rpc2).trace).length ≤ 1 :=
  transport_failure_propagates sample_codec provider_failing
    (sample_rpc 2 "filter".toList "<interfaces/>".toList)
    ⟨"GET".toList, "/operational/ietf-interfaces:interfaces".toList, []⟩
    (.YCPPClientError "connection refused".toList) (by decide) rfl

/-- C13: when one of the names `ydk:create`, `ydk:read`, `ydk:update`, `ydk:delete`
has an empty lookup, every run of `invoke` throws `YCPPIllegalStateError` naming an
absent operation; its trace is the one error log line, so there is no codec call and
no transport call, and the run is the same for every invocation and codec: nothing
of the invocation has been inspected. -/
theorem invoke_illegal_state (codec_service : CodecService)
    (self : RestconfServiceProvider) (rpc : Rpc)
    (h : ∃ operation ∈ operation_names, self.root_schema.find operation = []) :
    (∃ operation ∈ operation_names, self.root_schema.find operation = [] ∧
        (invoke codec_service self rpc).outcome =
          .threw (.YCPPIllegalStateError (operation ++ " rpc schema not found!".toList)) ∧
        (invoke codec_service self rpc).trace =
          [.log .error "\x7b\x7d rpc schema not found!".toList [operation]]) ∧
      transport_calls (invoke codec_service self rpc).trace = [] ∧
      codec_calls (invoke codec_service self rpc).trace = [] ∧
      ∀ (codec2 : CodecService) (rpc2 : Rpc),
        invoke codec2 self rpc2 = invoke codec_service self rpc := by
  obtain ⟨op, hmem, hop⟩ := first_absent_of_absent self.root_schema h
  have hfind : self.root_schema.find op = [] := by
    have := List.find?_some hop
    simpa using this
  refine ⟨⟨op, hmem, hfind, ?_, ?_⟩, ?_, ?_, ?_⟩
  · rw [invoke_absent codec_service self rpc op hop]
  · rw [invoke_absent codec_service self rpc op hop]
  · rw [invoke_absent codec_service self rpc op hop]; rfl
  · rw [invoke_absent codec_service self rpc op hop]; rfl
  · intro codec2 rpc2
    rw [invoke_absent codec_service self rpc op hop, invoke_absent codec2 self rpc2 op hop]

/-- C13 at a schema tree without `ydk:delete`: a create invocation is refused. -/
theorem invoke_illegal_state_witness :
    (∃ operation ∈ operation_names,
        provider_without_delete.root_schema.find operation = [] ∧
        (invoke sample_codec provider_without_delete
          (sample_rpc 1 "entity".toList "<interfaces/>".toList)).outcome =
          .threw (.YCPPIllegalStateError (operation ++ " rpc schema not found!".toList)) ∧
        (invoke sample_codec provider_without_delete
          (sample_rpc 1 "entity".toList "<interfaces/>".toList)).trace =
          [.log .error "\x7b\x7d rpc schema not found!".toList [operation]]) ∧
      transport_calls (invoke sample_codec provider_without_delete
        (sample_rpc 1 "entity".toList "<interfaces/>".toList)).trace = [] ∧
      codec_calls (invoke sample_codec provider_without_delete
        (sample_rpc 1 "entity".toList "<interfaces/>".toList)).trace = [] ∧
      ∀ (codec2 : CodecService) (rpc2 : Rpc),
        invoke codec2 provider_without_delete rpc2 =
          invoke sample_codec provider_without_delete
            (sample_rpc 1 "entity".toList "<interfaces/>".toList) :=
  invoke_illegal_state sample_codec provider_without_delete
    (sample_rpc 1 "entity".toList "<interfaces/>".toList)
    ⟨"ydk:delete".toList, by decide, rfl⟩

/-- C14: for an edit invocation (create, update or delete; entity present and
decodable, so that the transport is reached) whose transport call succeeds,
`invoke` returns the absent result, whatever the reply is. -/
theorem edit_returns_nothing (codec_service : CodecService)
    (self : RestconfServiceProvider) (rpc : Rpc) (c r u d : SchemaNode)
    (hres : Resolved self.root_schema c r u d)
    (hroute : routed_to_edit c r u d rpc.schema)
    (hin : decoded_first_child codec_service self rpc "entity".toList ≠ none)
    (hexec : ∀ call ∈ transport_calls (invoke codec_service self rpc).trace,
      ∃ reply, self.client.execute call.method call.url call.body = .ok reply) :
    (invoke codec_service self rpc).outcome = .returned none := by
  obtain ⟨child, hchild⟩ := Option.ne_none_iff_exists'.mp hin
  obtain ⟨op, _, hop⟩ := invoke_routed_to_edit codec_service self rpc c r u d hres hroute
  obtain ⟨url, v, _, hrun⟩ := handle_edit_populated codec_service self rpc op child hchild
  rw [hop, hrun] at hexec ⊢
  obtain ⟨reply, hreply⟩ := hexec ⟨op, url, v⟩ (List.mem_singleton.mpr rfl)
  simp only [hreply]

/-- C14 at the sample device: an update invocation returns no tree although the
client answered `<interfaces/>`. -/
theorem edit_returns_nothing_witness :
    (invoke sample_codec sample_provider
      (sample_rpc 3 "entity".toList "<interfaces/>".toList)).outcome = .returned none :=
  edit_returns_nothing sample_codec sample_provider
    (sample_rpc 3 "entity".toList "<interfaces/>".toList) 1 2 3 4
    ⟨rfl, rfl, rfl, rfl⟩ (Or.inr (Or.inl rfl))
    (by simp [decoded_first_child, sample_rpc, sample_codec, sample_tree, DataNode.get,
      DataNode.children])
    (fun _ _ => ⟨_, rfl⟩)

/-- C15: for an edit invocation with a present, decodable entity of string value `v`,
the calls `invoke` makes are the decode of `v`, a log line and one transport call
whose body is `v` itself; no encode call is made, and the run does not depend on the
encode function of the codec. -/
theorem edit_body_unchanged (codec_service : CodecService)
    (self : RestconfServiceProvider) (rpc : Rpc) (c r u d : SchemaNode)
    (hres : Resolved self.root_schema c r u d)
    (hroute : routed_to_edit c r u d rpc.schema)
    (hin : decoded_first_child codec_service self rpc "entity".toList ≠ none) :
    (∃ operation url v, input_value rpc "entity".toList = some v ∧
        (invoke codec_service self rpc).trace =
          [.decode v self.encoding,
           .log .info "Performing \x7b\x7d on URL \x7b\x7d. Payload: ".toList
             [operation, url, v],
           .execute operation url v]) ∧
      (∀ encoding, Event.encode encoding ∉ (invoke codec_service self rpc).trace) ∧
      ∀ encode2, invoke ⟨codec_service.decode, encode2⟩ self rpc =
        invoke codec_service self rpc := by
  obtain ⟨child, hchild⟩ := Option.ne_none_iff_exists'.mp hin
  obtain ⟨op, _, hop⟩ := invoke_routed_to_edit codec_service self rpc c r u d hres hroute
  obtain ⟨url, v, hv, hrun⟩ := handle_edit_populated codec_service self rpc op child hchild
  refine ⟨⟨op, url, v, hv, by rw [hop, hrun]⟩, ?_, fun _ => rfl⟩
  intro encoding hmem
  rw [hop, hrun] at hmem
  simp at hmem

/-- C15 at the sample device: a create invocation whose entity value is
`<interfaces />`. -/
theorem edit_body_unchanged_witness :
    (∃ operation url v,
        input_value (sample_rpc 1 "entity".toList "<interfaces />".toList)
          "entity".toList = some v ∧
        (invoke sample_codec sample_provider
          (sample_rpc 1 "entity".toList "<interfaces />".toList)).trace =
          [.decode v sample_provider.encoding,
           .log .info "Performing \x7b\x7d on URL \x7b\x7d. Payload: ".toList
             [operation, url, v],
           .execute operation url v]) ∧
      (∀ encoding, Event.encode encoding ∉ (invoke sample_codec sample_provider
          (sample_rpc 1 "entity".toList "<interfaces />".toList)).trace) ∧
      ∀ encode2, invoke ⟨sample_codec.decode, encode2⟩ sample_provider
          (sample_rpc 1 "entity".toList "<interfaces />".toList) =
        invoke sample_codec sample_provider
          (sample_rpc 1 "entity".toList "<interfaces />".toList) :=
  edit_body_unchanged sample_codec sample_provider
    (sample_rpc 1 "entity".toList "<interfaces />".toList) 1 2 3 4
    ⟨rfl, rfl, rfl, rfl⟩ (Or.inl rfl)
    (by simp [decoded_first_child, sample_rpc, sample_codec, sample_tree, DataNode.get,
      DataNode.children])

/-! ## URL derivation: bounds and unqualified paths -/

theorem find_last_of_succ_le (path : CppString) :
    (find_last_of path '/' + 1) % 2 ^ 64 ≤ path.length := by
  unfold find_last_of
  cases h : find_last_index '/' path with
  | none => simp [npos]
  | some i =>
    obtain ⟨pre, tl, h1, _, h3⟩ := find_last_index_some '/' path i h
    have hl : path.length = i + 1 + tl.length := by simp [h1, h3]; omega
    simp only [Option.getD_some]
    exact (Nat.mod_le _ _).trans (by omega)

/-- C16: `get_module_url_path` is total. For every string the position of the first
`substr`, `top + 1` modulo `2 ^ 64`, is at most the size (for a path without `/`,
`top` is `npos` and the position wraps to 0), and the position of the second is 0,
so neither `substr` throws and a string is returned; this holds for the empty
string, for a path without `/` and for a path ending in `/`. For a path without `/`
(a `std::string`: its size and terminator fit in a `size_t`) the tail is the whole
path. -/
theorem get_module_url_path_in_bounds (path : CppString) :
    (find_last_of path '/' + 1) % 2 ^ 64 ≤ path.length ∧
      ('/' ∉ path →
        find_last_of path '/' = npos ∧ (find_last_of path '/' + 1) % 2 ^ 64 = 0) ∧
      (∃ t, substr path ((find_last_of path '/' + 1) % 2 ^ 64)
        ((path.length + 2 ^ 64 - find_last_of path '/') % 2 ^ 64) = .ok t) ∧
      (∃ m, substr path 0 (string_find path ':') = .ok m) ∧
      (∃ s, get_module_url_path path = .ok s) ∧
      (path.length + 1 < 2 ^ 64 → '/' ∉ path →
        substr path ((find_last_of path '/' + 1) % 2 ^ 64)
          ((path.length + 2 ^ 64 - find_last_of path '/') % 2 ^ 64) = .ok path) ∧
      get_module_url_path [] = .ok ":".toList ∧
      get_module_url_path "abc".toList = .ok "abc:abc".toList ∧
      get_module_url_path "a/".toList = .ok "a/:".toList := by
  have hpos := find_last_of_succ_le path
  refine ⟨hpos, ?_, ?_, ?_, get_module_url_path_total path, ?_, rfl, rfl, rfl⟩
  · intro hn
    have h := (find_last_index_eq_none '/' path).mpr hn
    have e : find_last_of path '/' = npos := by
      unfold find_last_of
      rw [h]
      rfl
    rw [e]
    exact ⟨rfl, by decide⟩
  · unfold substr
    rw [if_neg (Nat.not_lt.mpr hpos)]
    exact ⟨_, rfl⟩
  · unfold substr
    rw [if_neg (Nat.not_lt_zero _)]
    exact ⟨_, rfl⟩
  · intro hlen hn
    rw [substr_tail path hlen, segment_after_last_of_not_mem '/' path hn]

/-- C17: for a schema path `path` without `:` (a `std::string`),
`get_module_url_path` returns `path ++ ":" ++ tail`, `tail` being the segment after
the last `/`; `a/b` gives `a/b:b`. An invocation whose decoded tree has a first child
of that schema path still makes its one transport call, with that string appended to
the configuration or state root as locator. -/
theorem get_module_url_path_unqualified (path : CppString)
    (hlen : path.length + 1 < 2 ^ 64) (hno : ':' ∉ path) :
    get_module_url_path path =
        .ok (path ++ ":".toList ++ segment_after_last '/' path) ∧
      get_module_url_path "a/b".toList = .ok "a/b:b".toList ∧
      ∀ (codec_service : CodecService) (self : RestconfServiceProvider) (rpc : Rpc)
        (c r u d : SchemaNode) (child : DataNode),
        Resolved self.root_schema c r u d →
        ((routed_to_edit c r u d rpc.schema ∧
            decoded_first_child codec_service self rpc "entity".toList = some child) ∨
          (routed_to_read c r u rpc.schema ∧
            decoded_first_child codec_service self rpc "filter".toList = some child)) →
        child.schema_path = path →
        ∃ call root, transport_calls (invoke codec_service self rpc).trace = [call] ∧
          (root = self.config_url_root ∨ root = self.state_url_root) ∧
          call.url = root ++ (path ++ ":".toList ++ segment_after_last '/' path) := by
  have hseg : ':' ∉ segment_after_last '/' path := by
    intro hm
    unfold segment_after_last at hm
    exact hno (List.mem_reverse.mp
      ((List.takeWhile_sublist _).subset (List.mem_reverse.mp hm)))
  have hgm : get_module_url_path path =
      .ok (path ++ ":".toList ++ segment_after_last '/' path) := by
    rw [get_module_url_path_eq path hlen, if_neg hseg,
      part_before_first_of_not_mem ':' path hno]
  refine ⟨hgm, rfl, ?_⟩
  intro codec_service self rpc c r u d child hres hin hpath
  rcases hin with ⟨hroute, hchild⟩ | ⟨hroute, hchild⟩
  · obtain ⟨op, _, hop⟩ := invoke_routed_to_edit codec_service self rpc c r u d hres hroute
    obtain ⟨s, v, hs, _, ht, _⟩ := handle_edit_calls codec_service self rpc op child hchild
    rw [hpath, hgm] at hs
    have es := Except.ok.inj hs
    rw [hop, ht]
    exact ⟨_, self.config_url_root, rfl, Or.inl rfl, by rw [es]⟩
  · obtain ⟨s, hs, ht⟩ := handle_read_calls codec_service self rpc child hchild
    rw [hpath, hgm] at hs
    have es := Except.ok.inj hs
    rw [invoke_routed_to_read codec_service self rpc c r u d hres hroute, ht]
    refine ⟨_, if is_config rpc then self.config_url_root else self.state_url_root, rfl,
      ?_, by rw [es]⟩
    cases is_config rpc
    · exact Or.inr rfl
    · exact Or.inl rfl

/-- C17 at the path `a/b`: a create invocation whose decoded entity has a first child
of schema path `a/b` is sent to a locator that ends in `a/b:b`. -/
theorem get_module_url_path_unqualified_witness :
    ∃ call root, transport_calls (invoke codec_unqualified sample_provider
          (sample_rpc 1 "entity".toList "<b/>".toList)).trace = [call] ∧
      (root = sample_provider.config_url_root ∨ root = sample_provider.state_url_root) ∧
      call.url = root ++
        ("a/b".toList ++ ":".toList ++ segment_after_last '/' "a/b".toList) :=
  (get_module_url_path_unqualified "a/b".toList (by decide) (by decide)).2.2
    codec_unqualified sample_provider (sample_rpc 1 "entity".toList "<b/>".toList)
    1 2 3 4 (.mk "a/b".toList [] []) ⟨rfl, rfl, rfl, rfl⟩ (Or.inl ⟨Or.inl rfl, rfl⟩) rfl

end ydk
